import Mathlib

/-!
Shallow embedding of the FASTER bad-channel / bad-epoch detection engine
(`mne_sandbox/preprocessing/bads/faster_.py` and
`mne_sandbox/preprocessing/bads/bads.py`).

Numeric arrays are embedded as (nested) `List ℝ`; machine floats are
modelled as real numbers.  The frequency axis produced by the spectral
estimator is exact rational arithmetic (`ℚ`), matching the formula
`k * sfreq / nperseg` used by `scipy.signal.welch`.  The power values
returned by `welch` (an external library whose numeric output none of the
verified claims depend on) are abstracted as a parameter `psFun` mapping a
channel's timeseries and a frequency-bin index to a power value.
Sample rates are restricted to positive integers.
-/

namespace MneBads

/-- Arithmetic mean of a list (`np.mean`); empty list yields `0/0 = 0`. -/
noncomputable def lmean (l : List ℝ) : ℝ := l.sum / l.length

/-- Population variance of a list (`np.var`, `ddof=0`). -/
noncomputable def lvar (l : List ℝ) : ℝ :=
  ((l.map (fun v => (v - lmean l) ^ 2)).sum) / l.length

/-- Mean of squares of a list (`np.mean(y ** 2)`). -/
noncomputable def meanSq (l : List ℝ) : ℝ :=
  ((l.map (fun v => v ^ 2)).sum) / l.length

/-- Peak-to-peak range of a list (`np.ptp`: max minus min). -/
noncomputable def ptp (l : List ℝ) : ℝ :=
  l.foldl max (l.headD 0) - l.foldl min (l.headD 0)

/-- First differences (`np.diff` along the time axis). -/
def diffL (l : List ℝ) : List ℝ :=
  List.zipWith (fun a b => b - a) l l.tail

/-- Cumulative sums (`np.cumsum`). -/
def cumsum (l : List ℝ) : List ℝ := (l.scanl (· + ·) 0).tail

/- ------------------------------------------------------------------ -/
/- Spectral Estimator (`_efficient_welch`, faster_.py lines 90-114)    -/
/- ------------------------------------------------------------------ -/

/-- Segment length chosen by `_efficient_welch`:
`nperseg = min(data.shape[-1], 2 ** int(np.log2(10 * sfreq) + 1))`.
For a positive integer `x`, `int(np.log2 x + 1) = Nat.log2 x + 1`
(truncation of a value `≥ 1` is the floor, and `⌊log2 x + 1⌋ = ⌊log2 x⌋ + 1`). -/
def nperseg (n_samples sfreq : ℕ) : ℕ :=
  min n_samples (2 ^ (Nat.log2 (10 * sfreq) + 1))

/-- The segment length the spec claims: the largest power of two not
exceeding the 10-second window `10 * sfreq`, clamped to `n_samples`.
(For `x ≥ 1` the largest power of two `≤ x` is `2 ^ Nat.log2 x`.) -/
def claimedNperseg (n_samples sfreq : ℕ) : ℕ :=
  min n_samples (2 ^ Nat.log2 (10 * sfreq))

/-- Frequency axis returned by `scipy.signal.welch` for a one-sided
spectrum with segment length `nperseg`: `k * sfreq / nperseg` for
`k = 0 .. nperseg // 2`. -/
def welchFreqs (n_samples sfreq : ℕ) : List ℚ :=
  (List.range (nperseg n_samples sfreq / 2 + 1)).map
    (fun k => (k : ℚ) * sfreq / (nperseg n_samples sfreq : ℚ))

/-- `np.searchsorted(fs, f)` (left variant) on an ascending list:
the number of elements strictly below `f`. -/
def searchsorted (fs : List ℚ) (f : ℚ) : ℕ :=
  fs.countP (fun v => decide (v < f))

/- ------------------------------------------------------------------ -/
/- `_freqs_power` (faster_.py lines 117-142)                           -/
/- ------------------------------------------------------------------ -/

/-- The `ValueError` message raised by `_freqs_power` when a requested
frequency lies beyond the computed spectrum. -/
def lineNoiseMsgFor (freqs : List ℚ) : String :=
  "Insufficient sample rate to  estimate power at " ++ toString freqs ++
    " Hz for line noise detection. Use the 'metrics' parameter to disable " ++
    "the 'line_noise' metric."

/-- `_freqs_power(data, sfreq, freqs)` for 2-D input `data`
(channels × samples): runs the Welch estimate and sums, per channel, the
power at the bin `searchsorted(fs, f)` for each requested frequency.
Indexing a bin at or beyond `len(fs)` raises `IndexError`, which the
source converts to a `ValueError`; `psFun` abstracts the power values
computed by `scipy.signal.welch`. -/
def freqs_power (psFun : List ℝ → ℕ → ℝ) (data : List (List ℝ))
    (sfreq : ℕ) (freqs : List ℚ) : Except String (List ℝ) :=
  let n := (data.headD []).length
  let fs := welchFreqs n sfreq
  if ∀ f ∈ freqs, searchsorted fs f < fs.length then
    .ok (data.map (fun ch => (freqs.map (fun f => psFun ch (searchsorted fs f))).sum))
  else
    .error (lineNoiseMsgFor freqs)

/-- `_freqs_power` for 3-D input (epochs × channels × samples), as used
by the channels-in-epochs detector. -/
def freqs_power3 (psFun : List ℝ → ℕ → ℝ) (data : List (List (List ℝ)))
    (sfreq : ℕ) (freqs : List ℚ) : Except String (List (List ℝ)) :=
  let n := (((data.headD []).headD []) : List ℝ).length
  let fs := welchFreqs n sfreq
  if ∀ f ∈ freqs, searchsorted fs f < fs.length then
    .ok (data.map (fun ep => ep.map
      (fun ch => (freqs.map (fun f => psFun ch (searchsorted fs f))).sum)))
  else
    .error (lineNoiseMsgFor freqs)

end MneBads

/- ------------------------------------------------------------------ -/
/- C1                                                                  -/
/- ------------------------------------------------------------------ -/

namespace MneBads

/-- C1: the claim is false as stated.  At `n_samples = 1000`,
`sfreq = 2`, the code picks segment length `32` — the power of two
strictly above the 10-second window `10 * sfreq = 20` — while the
largest power of two not exceeding `20` is `16`. -/
theorem C1_counterexample :
    nperseg 1000 2 ≠ claimedNperseg 1000 2 ∧
      nperseg 1000 2 = 32 ∧ claimedNperseg 1000 2 = 16 := by
  refine ⟨?_, ?_, ?_⟩ <;> simp [nperseg, claimedNperseg, Nat.log2]

/-- C1 (amended): for every block and every positive integer sample rate,
`_efficient_welch` uses non-overlapping segments whose length is the
smallest power of two strictly exceeding the 10-second window
`10 * sfreq`, clamped to the available sample count `n_samples`. -/
theorem C1_segment_length (n_samples sfreq : ℕ) (h : 1 ≤ sfreq) :
    nperseg n_samples sfreq = min n_samples (2 ^ (Nat.log2 (10 * sfreq) + 1)) ∧
      IsLeast {p : ℕ | (∃ k, p = 2 ^ k) ∧ 10 * sfreq < p}
        (2 ^ (Nat.log2 (10 * sfreq) + 1)) := by
  refine ⟨rfl, ⟨⟨_, rfl⟩, Nat.lt_log2_self⟩, ?_⟩
  rintro p ⟨⟨k, rfl⟩, hp⟩
  have hx : 10 * sfreq ≠ 0 := by positivity
  have h1 : 2 ^ Nat.log2 (10 * sfreq) ≤ 10 * sfreq := Nat.log2_self_le hx
  have h2 : 2 ^ Nat.log2 (10 * sfreq) < 2 ^ k := lt_of_le_of_lt h1 hp
  have h3 : Nat.log2 (10 * sfreq) < k :=
    (Nat.pow_lt_pow_iff_right (by norm_num)).mp h2
  exact Nat.pow_le_pow_right (by norm_num) h3

/-- Witness for `C1_segment_length` at `n_samples = 1000`, `sfreq = 2`. -/
theorem C1_segment_length_witness :
    (1 ≤ 2) ∧
      (nperseg 1000 2 = min 1000 (2 ^ (Nat.log2 20 + 1)) ∧
        IsLeast {p : ℕ | (∃ k, p = 2 ^ k) ∧ 20 < p} (2 ^ (Nat.log2 20 + 1))) :=
  ⟨by norm_num, C1_segment_length 1000 2 (by norm_num)⟩

end MneBads

/- ------------------------------------------------------------------ -/
/- Outlier Selector (`find_outliers`, imported from `.outliers`)       -/
/- ------------------------------------------------------------------ -/

namespace MneBads

/-- Mean of the scores restricted to a working subset of indices. -/
noncomputable def subsetMean (x : List ℝ) (s : Finset ℕ) : ℝ :=
  (∑ i ∈ s, x.getD i 0) / s.card

/-- Population variance of the scores restricted to a working subset. -/
noncomputable def subsetVar (x : List ℝ) (s : Finset ℕ) : ℝ :=
  (∑ i ∈ s, (x.getD i 0 - subsetMean x s) ^ 2) / s.card

/-- Standard deviation of the scores restricted to a working subset. -/
noncomputable def subsetStd (x : List ℝ) (s : Finset ℕ) : ℝ :=
  Real.sqrt (subsetVar x s)

/-- Modelled from the spec: one pass of the Outlier Selector of
`find_outliers` (imported from `.outliers`, a module of this repository
that is not under `src/`).  Per spec §4.4: the working subset is the
complement of the indices already removed; the pass computes mean and
standard deviation of the scores restricted to that subset and marks any
index of the full vector deviating more than `thresh` standard deviations
from the mean; a zero-variance working subset (in particular one of size
`≤ 1`) produces no new outliers. -/
noncomputable def outlierStep (x : List ℝ) (thresh : ℝ) (bad : Finset ℕ) : Finset ℕ :=
  let s := Finset.range x.length \ bad
  open Classical in
  if subsetStd x s = 0 then ∅
  else ((Finset.range x.length).filter
    (fun i => |x.getD i 0 - subsetMean x s| > thresh * subsetStd x s)) \ bad

/-- Modelled from the spec: the iteration of `find_outliers` (§4.4):
repeat up to `max_iter` times, accumulating the union of removed indices
and stopping early when a pass flags nothing new. -/
noncomputable def findOutliersAux (x : List ℝ) (thresh : ℝ) :
    ℕ → Finset ℕ → Finset ℕ
  | 0, bad => bad
  | k + 1, bad =>
    let new := outlierStep x thresh bad
    if new = ∅ then bad else findOutliersAux x thresh k (bad ∪ new)

/-- Modelled from the spec: `find_outliers(scores, thresh, max_iter)`
(§4.4), the iterative standard-deviation thresholding selector, starting
from an empty removed set. -/
noncomputable def find_outliers (x : List ℝ) (thresh : ℝ) (max_iter : ℕ) : Finset ℕ :=
  findOutliersAux x thresh max_iter ∅

lemma subset_findOutliersAux (x : List ℝ) (thresh : ℝ) (k : ℕ) :
    ∀ bad : Finset ℕ, bad ⊆ findOutliersAux x thresh k bad := by
  induction k with
  | zero => intro bad; simp [findOutliersAux]
  | succ k ih =>
    intro bad
    rw [findOutliersAux]
    by_cases h : outlierStep x thresh bad = ∅
    · simp [h]
    · simp only [h, if_neg, if_false]
      exact Finset.Subset.trans Finset.subset_union_left (ih _)

lemma findOutliersAux_succ_mono (x : List ℝ) (thresh : ℝ) (k : ℕ) :
    ∀ bad : Finset ℕ,
      findOutliersAux x thresh k bad ⊆ findOutliersAux x thresh (k + 1) bad := by
  induction k with
  | zero =>
    intro bad
    simpa [findOutliersAux] using subset_findOutliersAux x thresh 1 bad
  | succ k ih =>
    intro bad
    rw [findOutliersAux]
    conv_rhs => rw [findOutliersAux]
    by_cases h : outlierStep x thresh bad = ∅
    · simp [h]
    · simp only [h, if_false]
      exact ih _

end MneBads

/- ------------------------------------------------------------------ -/
/- C4                                                                  -/
/- ------------------------------------------------------------------ -/

namespace MneBads

/-- C4: under fixed scores and threshold, the outlier set of the
iterative selector is monotone non-decreasing in `max_iter`: every index
flagged with `max_iter = k` is also flagged with `max_iter = k + 1`, so
raising `max_iter` never shrinks the returned set. -/
theorem C4_find_outliers_monotone (x : List ℝ) (thresh : ℝ) (k : ℕ) :
    find_outliers x thresh k ⊆ find_outliers x thresh (k + 1) ∧
      (find_outliers x thresh k).card ≤ (find_outliers x thresh (k + 1)).card := by
  have h := findOutliersAux_succ_mono x thresh k ∅
  exact ⟨h, Finset.card_le_card h⟩

end MneBads

/- ------------------------------------------------------------------ -/
/- Reference-Distance Corrector (`_distance_correction`, lines 12-52)  -/
/- ------------------------------------------------------------------ -/

namespace MneBads

/-- A coordinate row is "missing" when every entry is zero
(`np.all(pos == 0, axis=1)`). -/
def allZero (v : List ℝ) : Prop := ∀ u ∈ v, u = 0

/-- Sensor position of a channel: `info['chs'][ch]['loc'][:3]`.
Channel metadata is embedded as the list of per-channel `loc` vectors. -/
def posOf (info : List (List ℝ)) (ch : ℕ) : List ℝ := (info.getD ch []).take 3

/-- Reference position of a channel: `info['chs'][ch]['loc'][3:6]`. -/
def refOf (info : List (List ℝ)) (ch : ℕ) : List ℝ :=
  ((info.getD ch []).drop 3).take 3

/-- Euclidean norm of a coordinate row (`np.linalg.norm(pos, axis=1)`). -/
noncomputable def norm3 (v : List ℝ) : ℝ :=
  Real.sqrt ((v.map (fun u => u ^ 2)).sum)

/-- Unit-normalized coordinate row (`pos /= np.linalg.norm(...)`). -/
noncomputable def unitL (v : List ℝ) : List ℝ := v.map (fun u => u / norm3 v)

/-- Dot product of two rows (`np.dot(a, b)`). -/
noncomputable def dotL (a b : List ℝ) : ℝ := (List.zipWith (· * ·) a b).sum

/-- Angular distance of a sensor to the reference:
`np.arccos(np.dot(a, b))` on the unit-normalized rows. -/
noncomputable def angleOf (p r : List ℝ) : ℝ :=
  Real.arccos (dotL (unitL p) (unitL r))

/-- The angular distances of the selected channels. -/
noncomputable def anglesOf (info : List (List ℝ)) (picks : List ℕ) : List ℝ :=
  picks.map (fun ch => angleOf (posOf info ch) (refOf info ch))

/-- Error message for channels without position information. -/
def posMissingMsg : String :=
  "Cannot perform correction for distance to reference sensor: not all " ++
    "selected channels have position information."

/-- Error message for channels without a reference-sensor location. -/
def refMissingMsg : String :=
  "Cannot perform correction for distance to reference sensor: the " ++
    "location of the reference sensor is not specified for all selected " ++
    "channels."

/-- Power sums `Σ t ^ k` over the angle list; these are the entries of
the normal matrix of the quadratic least-squares problem `np.polyfit`
solves. -/
noncomputable def powSum (a : List ℝ) (k : ℕ) : ℝ := (a.map (fun t => t ^ k)).sum

/-- Moment sums `Σ x_i * a_i ^ k` over (angle, score) pairs. -/
noncomputable def momentSum (a x : List ℝ) (k : ℕ) : ℝ :=
  ((a.zip x).map (fun p => p.2 * p.1 ^ k)).sum

/-- Normal (Gram) matrix of the degree-2 Vandermonde system, with
coefficients ordered highest power first as `np.polyfit` returns them. -/
noncomputable def normalMat (a : List ℝ) : Matrix (Fin 3) (Fin 3) ℝ :=
  Matrix.of fun j k => powSum a (4 - (j : ℕ) - (k : ℕ))

/-- Right-hand side of the normal equations. -/
noncomputable def normalVec (a x : List ℝ) : Fin 3 → ℝ :=
  fun j => momentSum a x (2 - (j : ℕ))

/-- `np.polyfit(angles, x, 2)`: the least-squares quadratic fit,
computed by solving the normal equations. -/
noncomputable def polyfit2 (a x : List ℝ) : Fin 3 → ℝ :=
  (normalMat a)⁻¹.mulVec (normalVec a x)

/-- `np.polyval(fit, t)` for a degree-2 fit (highest power first). -/
noncomputable def polyval2 (c : Fin 3 → ℝ) (t : ℝ) : ℝ :=
  c 0 * t ^ 2 + c 1 * t + c 2

/-- `_distance_correction(info, picks, x)`: checks that every selected
channel carries sensor- and reference-position information (raising a
`ValueError` otherwise, position first), then subtracts from `x` the
quadratic fitted against the angular distances to the reference. -/
noncomputable def distance_correction (info : List (List ℝ)) (picks : List ℕ)
    (x : List ℝ) : Except String (List ℝ) :=
  let pos := picks.map (posOf info)
  let ref_pos := picks.map (refOf info)
  open Classical in
  if ∃ p ∈ pos, allZero p then .error posMissingMsg
  else if ∃ p ∈ ref_pos, allZero p then .error refMissingMsg
  else
    let angles := List.zipWith angleOf pos ref_pos
    let fit := polyfit2 angles x
    .ok ((x.zip angles).map (fun p => p.1 - polyval2 fit p.2))

lemma zipWith_angleOf_eq (info : List (List ℝ)) (picks : List ℕ) :
    List.zipWith angleOf (picks.map (posOf info)) (picks.map (refOf info)) =
      anglesOf info picks := by
  rw [List.zipWith_map, List.zipWith_same]
  rfl

end MneBads

/- ------------------------------------------------------------------ -/
/- C2                                                                  -/
/- ------------------------------------------------------------------ -/

namespace MneBads

/-- C2: whenever at least one selected channel has an all-zero sensor
position or an all-zero reference position, `_distance_correction`
raises one of the two `ValueError`s naming the missing data and never
returns a corrected score vector. -/
theorem C2_missing_geometry (info : List (List ℝ)) (picks : List ℕ) (x : List ℝ)
    (h : (∃ ch ∈ picks, allZero (posOf info ch)) ∨
      (∃ ch ∈ picks, allZero (refOf info ch))) :
    (distance_correction info picks x = .error posMissingMsg ∨
      distance_correction info picks x = .error refMissingMsg) ∧
      ∀ y, distance_correction info picks x ≠ .ok y := by
  classical
  have hres : distance_correction info picks x = .error posMissingMsg ∨
      distance_correction info picks x = .error refMissingMsg := by
    by_cases h1 : ∃ ch ∈ picks, allZero (posOf info ch)
    · left; simp [distance_correction, h1]
    · have h2 : ∃ ch ∈ picks, allZero (refOf info ch) := h.resolve_left h1
      right; simp [distance_correction, h1, h2]
  refine ⟨hres, fun y hy => ?_⟩
  rcases hres with hres | hres <;> rw [hres] at hy <;> exact Except.noConfusion hy

/-- Witness for `C2_missing_geometry`: a single channel whose sensor
position is `(1, 0, 0)` but whose reference-location field is all
zeros. -/
theorem C2_missing_geometry_witness :
    ((∃ ch ∈ [0], allZero (posOf [[1, 0, 0, 0, 0, 0]] ch)) ∨
      (∃ ch ∈ [0], allZero (refOf [[1, 0, 0, 0, 0, 0]] ch))) ∧
      ((distance_correction [[1, 0, 0, 0, 0, 0]] [0] [5] = .error posMissingMsg ∨
        distance_correction [[1, 0, 0, 0, 0, 0]] [0] [5] = .error refMissingMsg) ∧
        ∀ y, distance_correction [[1, 0, 0, 0, 0, 0]] [0] [5] ≠ .ok y) := by
  have h : (∃ ch ∈ [0], allZero (posOf [[1, 0, 0, 0, 0, 0]] ch)) ∨
      (∃ ch ∈ [0], allZero (refOf [[1, 0, 0, 0, 0, 0]] ch)) := by
    right
    refine ⟨0, by simp, ?_⟩
    intro u hu
    simp [refOf] at hu
    exact hu
  exact ⟨h, C2_missing_geometry _ _ _ h⟩

end MneBads

/- ------------------------------------------------------------------ -/
/- Least-squares characterization of `np.polyfit(·, ·, 2)`             -/
/- ------------------------------------------------------------------ -/

namespace MneBads

/-- The normal equations of the quadratic least-squares problem: the
residual of the fit is orthogonal to each monomial basis vector
evaluated at the angles. -/
def NormalEqs (a x : List ℝ) (c : Fin 3 → ℝ) : Prop :=
  ∀ j : Fin 3,
    ((a.zip x).map (fun p => (polyval2 c p.1 - p.2) * p.1 ^ (2 - (j : ℕ)))).sum = 0

/-- Sum of squared residuals of a candidate quadratic over the
(angle, score) pairs. -/
noncomputable def lossQ (a x : List ℝ) (c : Fin 3 → ℝ) : ℝ :=
  ((a.zip x).map (fun p => (polyval2 c p.1 - p.2) ^ 2)).sum

lemma lsum_add {α : Type} (l : List α) (f g : α → ℝ) :
    (l.map (fun t => f t + g t)).sum = (l.map f).sum + (l.map g).sum := by
  induction l with
  | nil => simp
  | cons h t ih => simp only [List.map_cons, List.sum_cons, ih]; ring

lemma lsum_sub {α : Type} (l : List α) (f g : α → ℝ) :
    (l.map (fun t => f t - g t)).sum = (l.map f).sum - (l.map g).sum := by
  induction l with
  | nil => simp
  | cons h t ih => simp only [List.map_cons, List.sum_cons, ih]; ring

lemma lsum_mul {α : Type} (c : ℝ) (l : List α) (f : α → ℝ) :
    (l.map (fun t => c * f t)).sum = c * (l.map f).sum := by
  induction l with
  | nil => simp
  | cons h t ih => simp only [List.map_cons, List.sum_cons, ih]; ring

lemma lsum_fin3 {α : Type} (l : List α) (f : α → Fin 3 → ℝ) :
    (l.map (fun t => ∑ j : Fin 3, f t j)).sum = ∑ j : Fin 3, (l.map (fun t => f t j)).sum := by
  induction l with
  | nil => simp
  | cons h t ih =>
    simp only [List.map_cons, List.sum_cons, ih]
    rw [Finset.sum_add_distrib]

lemma zip_fst_pow_sum (a x : List ℝ) (hlen : a.length ≤ x.length) (m : ℕ) :
    ((a.zip x).map (fun p => p.1 ^ m)).sum = powSum a m := by
  have : ((a.zip x).map (fun p => p.1 ^ m)) = a.map (fun t => t ^ m) := by
    have h1 : (a.zip x).map (fun p => p.1 ^ m) =
        ((a.zip x).map Prod.fst).map (fun t => t ^ m) := by
      rw [List.map_map]; rfl
    rw [h1, List.map_fst_zip _ _ hlen]
  rw [this, powSum]

/-- The solution of the normal equations satisfies the normal-equation
orthogonality conditions. -/
lemma normalEqs_of_mulVec (a x : List ℝ) (c : Fin 3 → ℝ)
    (hlen : a.length ≤ x.length)
    (h : (normalMat a).mulVec c = normalVec a x) : NormalEqs a x c := by
  intro j
  have hj := congrFun h j
  simp only [Matrix.mulVec, Matrix.dotProduct, Fin.sum_univ_three, normalMat,
    Matrix.of_apply, normalVec] at hj
  have expand : ((a.zip x).map
      (fun p => (polyval2 c p.1 - p.2) * p.1 ^ (2 - (j : ℕ)))).sum =
      c 0 * ((a.zip x).map (fun p => p.1 ^ (2 - (j : ℕ) + 2))).sum +
        c 1 * ((a.zip x).map (fun p => p.1 ^ (2 - (j : ℕ) + 1))).sum +
        c 2 * ((a.zip x).map (fun p => p.1 ^ (2 - (j : ℕ)))).sum -
        ((a.zip x).map (fun p => p.2 * p.1 ^ (2 - (j : ℕ)))).sum := by
    have congr1 : ((a.zip x).map
        (fun p => (polyval2 c p.1 - p.2) * p.1 ^ (2 - (j : ℕ)))) =
        ((a.zip x).map (fun p =>
          (c 0 * p.1 ^ (2 - (j : ℕ) + 2) + c 1 * p.1 ^ (2 - (j : ℕ) + 1)) +
            (c 2 * p.1 ^ (2 - (j : ℕ)) - p.2 * p.1 ^ (2 - (j : ℕ))))) := by
      apply List.map_congr_left
      intro p _
      simp only [polyval2]
      ring
    rw [congr1, lsum_add, lsum_add, lsum_sub, lsum_mul, lsum_mul, lsum_mul]
    ring
  rw [expand, zip_fst_pow_sum a x hlen, zip_fst_pow_sum a x hlen,
    zip_fst_pow_sum a x hlen]
  have e2 : ((a.zip x).map (fun p => p.2 * p.1 ^ (2 - (j : ℕ)))).sum =
      momentSum a x (2 - (j : ℕ)) := rfl
  rw [e2]
  have hv0 : (((0 : Fin 3) : ℕ)) = 0 := rfl
  have hv1 : (((1 : Fin 3) : ℕ)) = 1 := rfl
  have hv2 : (((2 : Fin 3) : ℕ)) = 2 := rfl
  rw [hv0, hv1, hv2] at hj
  have hj2 : (j : ℕ) ≤ 2 := Nat.lt_succ_iff.mp j.2
  have p0 : 2 - (j : ℕ) + 2 = 4 - (j : ℕ) - 0 := by omega
  have p1 : 2 - (j : ℕ) + 1 = 4 - (j : ℕ) - 1 := by omega
  have p2 : 2 - (j : ℕ) = 4 - (j : ℕ) - 2 := by omega
  rw [p0, p1, p2]
  rw [p2] at hj
  linarith [hj]

/-- A coefficient vector satisfying the normal equations minimizes the
sum of squared residuals among all quadratics. -/
lemma lossQ_le_of_normalEqs (a x : List ℝ) (c : Fin 3 → ℝ)
    (h : NormalEqs a x c) (d : Fin 3 → ℝ) : lossQ a x c ≤ lossQ a x d := by
  have decomp : lossQ a x d = lossQ a x c +
      (2 * ∑ j : Fin 3, (d j - c j) *
        ((a.zip x).map (fun p => (polyval2 c p.1 - p.2) * p.1 ^ (2 - (j : ℕ)))).sum) +
      ((a.zip x).map (fun p => (polyval2 d p.1 - polyval2 c p.1) ^ 2)).sum := by
    have congr1 : ((a.zip x).map (fun p => (polyval2 d p.1 - p.2) ^ 2)) =
        ((a.zip x).map (fun p =>
          ((polyval2 c p.1 - p.2) ^ 2 +
            2 * (∑ j : Fin 3, (d j - c j) *
              ((polyval2 c p.1 - p.2) * p.1 ^ (2 - (j : ℕ))))) +
            (polyval2 d p.1 - polyval2 c p.1) ^ 2)) := by
      apply List.map_congr_left
      intro p _
      simp only [polyval2, Fin.sum_univ_three]
      norm_num
      ring
    rw [lossQ, congr1, lsum_add, lsum_add]
    have e1 : ((a.zip x).map (fun p =>
        2 * (∑ j : Fin 3, (d j - c j) *
          ((polyval2 c p.1 - p.2) * p.1 ^ (2 - (j : ℕ)))))).sum =
        2 * ∑ j : Fin 3, (d j - c j) *
          ((a.zip x).map (fun p => (polyval2 c p.1 - p.2) * p.1 ^ (2 - (j : ℕ)))).sum := by
      rw [lsum_mul]
      congr 1
      rw [lsum_fin3]
      apply Finset.sum_congr rfl
      intro j _
      rw [lsum_mul]
    rw [e1]
    rfl
  have hzero : (2 : ℝ) * ∑ j : Fin 3, (d j - c j) *
      ((a.zip x).map (fun p => (polyval2 c p.1 - p.2) * p.1 ^ (2 - (j : ℕ)))).sum = 0 := by
    have : ∀ j : Fin 3, (d j - c j) *
        ((a.zip x).map (fun p => (polyval2 c p.1 - p.2) * p.1 ^ (2 - (j : ℕ)))).sum = 0 := by
      intro j
      rw [h j, mul_zero]
    rw [Finset.sum_congr rfl (fun j _ => this j)]
    simp
  have hnn : 0 ≤ ((a.zip x).map (fun p => (polyval2 d p.1 - polyval2 c p.1) ^ 2)).sum := by
    apply List.sum_nonneg
    intro v hv
    rcases List.mem_map.mp hv with ⟨p, _, rfl⟩
    positivity
  rw [decomp, hzero, add_zero]
  linarith

/-- With an invertible normal matrix, `np.polyfit` (modelled by solving
the normal equations) satisfies them. -/
lemma polyfit2_normal (a x : List ℝ) (hdet : (normalMat a).det ≠ 0) :
    (normalMat a).mulVec (polyfit2 a x) = normalVec a x := by
  unfold polyfit2
  rw [Matrix.mulVec_mulVec, Matrix.mul_nonsing_inv _ (isUnit_iff_ne_zero.mpr hdet),
    Matrix.one_mulVec]

end MneBads

/- ------------------------------------------------------------------ -/
/- C3                                                                  -/
/- ------------------------------------------------------------------ -/

namespace MneBads

lemma anglesOf_length (info : List (List ℝ)) (picks : List ℕ) :
    (anglesOf info picks).length = picks.length := by
  simp [anglesOf]

/-- C3: with full geometry and a non-degenerate normal matrix,
`_distance_correction` returns `x` minus the fitted quadratic evaluated
at each channel's angular distance (arccosine of the dot product of the
unit-normalized sensor and reference positions), and the fitted
coefficients satisfy the normal equations and minimize the sum of
squared residuals over all quadratics — i.e. they are the least-squares
fit of score versus angular distance. -/
theorem C3_distance_correction_fit (info : List (List ℝ)) (picks : List ℕ)
    (x : List ℝ) (hlen : picks.length ≤ x.length)
    (hpos : ∀ ch ∈ picks, ¬ allZero (posOf info ch))
    (href : ∀ ch ∈ picks, ¬ allZero (refOf info ch))
    (hdet : (normalMat (anglesOf info picks)).det ≠ 0) :
    distance_correction info picks x =
      .ok ((x.zip (anglesOf info picks)).map
        (fun p => p.1 - polyval2 (polyfit2 (anglesOf info picks) x) p.2)) ∧
      NormalEqs (anglesOf info picks) x (polyfit2 (anglesOf info picks) x) ∧
      ∀ d : Fin 3 → ℝ,
        lossQ (anglesOf info picks) x (polyfit2 (anglesOf info picks) x) ≤
          lossQ (anglesOf info picks) x d := by
  have hlen2 : (anglesOf info picks).length ≤ x.length := by
    rw [anglesOf_length]; exact hlen
  have hne : NormalEqs (anglesOf info picks) x (polyfit2 (anglesOf info picks) x) :=
    normalEqs_of_mulVec _ _ _ hlen2 (polyfit2_normal _ _ hdet)
  refine ⟨?_, hne, fun d => lossQ_le_of_normalEqs _ _ _ hne d⟩
  have g1 : ¬ ∃ ch ∈ picks, allZero (posOf info ch) := by
    rintro ⟨ch, hch, hz⟩; exact hpos ch hch hz
  have g2 : ¬ ∃ ch ∈ picks, allZero (refOf info ch) := by
    rintro ⟨ch, hch, hz⟩; exact href ch hch hz
  simp only [distance_correction, zipWith_angleOf_eq]
  rw [if_neg, if_neg]
  · rintro ⟨p, hp, hz⟩
    rcases List.mem_map.mp hp with ⟨ch, hch, rfl⟩
    exact g2 ⟨ch, hch, hz⟩
  · rintro ⟨p, hp, hz⟩
    rcases List.mem_map.mp hp with ⟨ch, hch, rfl⟩
    exact g1 ⟨ch, hch, hz⟩

end MneBads

namespace MneBads

/-- Three channels all at sensor position `(1,0,0)` whose reference
positions are `(1,0,0)`, `(0,1,0)` and `(-1,0,0)`, giving angular
distances `0`, `π/2` and `π`. -/
noncomputable def geomInfo : List (List ℝ) :=
  [[1, 0, 0, 1, 0, 0], [1, 0, 0, 0, 1, 0], [1, 0, 0, -1, 0, 0]]

lemma geomInfo_angles : anglesOf geomInfo [0, 1, 2] = [0, Real.pi / 2, Real.pi] := by
  simp [anglesOf, geomInfo, posOf, refOf, angleOf, unitL, norm3, dotL]

lemma geomInfo_det :
    (normalMat (anglesOf geomInfo [0, 1, 2])).det = Real.pi ^ 6 / 16 := by
  rw [geomInfo_angles]
  simp [Matrix.det_fin_three, normalMat, powSum]
  ring

/-- Witness for `C3_distance_correction_fit`: three channels with unit
geometry and scores `[1, 2, 3]`. -/
theorem C3_distance_correction_fit_witness :
    (([0, 1, 2] : List ℕ).length ≤ ([1, 2, 3] : List ℝ).length) ∧
      (∀ ch ∈ ([0, 1, 2] : List ℕ), ¬ allZero (posOf geomInfo ch)) ∧
      (∀ ch ∈ ([0, 1, 2] : List ℕ), ¬ allZero (refOf geomInfo ch)) ∧
      ((normalMat (anglesOf geomInfo [0, 1, 2])).det ≠ 0) ∧
      (distance_correction geomInfo [0, 1, 2] [1, 2, 3] =
        .ok ((([1, 2, 3] : List ℝ).zip (anglesOf geomInfo [0, 1, 2])).map
          (fun p => p.1 -
            polyval2 (polyfit2 (anglesOf geomInfo [0, 1, 2]) [1, 2, 3]) p.2)) ∧
        NormalEqs (anglesOf geomInfo [0, 1, 2]) [1, 2, 3]
          (polyfit2 (anglesOf geomInfo [0, 1, 2]) [1, 2, 3]) ∧
        ∀ d : Fin 3 → ℝ,
          lossQ (anglesOf geomInfo [0, 1, 2]) [1, 2, 3]
              (polyfit2 (anglesOf geomInfo [0, 1, 2]) [1, 2, 3]) ≤
            lossQ (anglesOf geomInfo [0, 1, 2]) [1, 2, 3] d) := by
  have hlen : (([0, 1, 2] : List ℕ)).length ≤ (([1, 2, 3] : List ℝ)).length := by
    norm_num
  have hpos : ∀ ch ∈ ([0, 1, 2] : List ℕ), ¬ allZero (posOf geomInfo ch) := by
    intro ch hch hz
    have h1 : (1 : ℝ) = 0 := by
      apply hz
      fin_cases hch <;> simp [posOf, geomInfo]
    norm_num at h1
  have href : ∀ ch ∈ ([0, 1, 2] : List ℕ), ¬ allZero (refOf geomInfo ch) := by
    intro ch hch hz
    fin_cases hch
    · have h1 : (1 : ℝ) = 0 := by apply hz; simp [refOf, geomInfo]
      norm_num at h1
    · have h1 : (1 : ℝ) = 0 := by apply hz; simp [refOf, geomInfo]
      norm_num at h1
    · have h1 : (-1 : ℝ) = 0 := by apply hz; simp [refOf, geomInfo]
      norm_num at h1
  have hdet : (normalMat (anglesOf geomInfo [0, 1, 2])).det ≠ 0 := by
    rw [geomInfo_det]
    exact div_ne_zero (pow_ne_zero _ Real.pi_ne_zero) (by norm_num)
  exact ⟨hlen, hpos, href, hdet,
    C3_distance_correction_fit geomInfo [0, 1, 2] [1, 2, 3] hlen hpos href hdet⟩

end MneBads

/- ------------------------------------------------------------------ -/
/- `_hurst` (faster_.py lines 55-87)                                   -/
/- ------------------------------------------------------------------ -/

namespace MneBads

/-- `scipy.signal.lfilter(b, 1, y)` for an FIR filter with zero initial
conditions: `out[n] = Σ_k b[k] * y[n-k]`, same length as `y`. -/
noncomputable def firFilter (b y : List ℝ) : List ℝ :=
  (List.range y.length).map (fun n =>
    ((List.range b.length).map (fun k =>
      b.getD k 0 * (if k ≤ n then y.getD (n - k) 0 else 0))).sum)

/-- The narrow second-order derivative filter `b1 = [1, -2, 1]`. -/
noncomputable def b1coefs : List ℝ := [1, -2, 1]

/-- The wide second-order derivative filter `b2 = [1, 0, -2, 0, 1]`. -/
noncomputable def b2coefs : List ℝ := [1, 0, -2, 0, 1]

/-- `_hurst(x)`: per channel, cumulative sum of first differences, the
two FIR filters, cropping `[len(b) - 1 : -1]` (first `len(b) - 1`
samples and the final sample), and `0.5 * log2` of the ratio of mean
squares. -/
noncomputable def hurst (x : List (List ℝ)) : List ℝ :=
  x.map (fun ch =>
    let y := cumsum (diffL ch)
    let y1 := ((firFilter b1coefs y).drop (b1coefs.length - 1)).dropLast
    let y2 := ((firFilter b2coefs y).drop (b2coefs.length - 1)).dropLast
    0.5 * Real.logb 2 (meanSq y2 / meanSq y1))

/-- The Hurst metric as the claim words it: identical pipeline but with
only the initial filter-artifact samples dropped (`[len(b) - 1:]`), not
the final sample. -/
noncomputable def hurstClaimed (x : List (List ℝ)) : List ℝ :=
  x.map (fun ch =>
    let y := cumsum (diffL ch)
    let y1 := (firFilter b1coefs y).drop (b1coefs.length - 1)
    let y2 := (firFilter b2coefs y).drop (b2coefs.length - 1)
    0.5 * Real.logb 2 (meanSq y2 / meanSq y1))

end MneBads

/- ------------------------------------------------------------------ -/
/- C9                                                                  -/
/- ------------------------------------------------------------------ -/

namespace MneBads

lemma fir_b1_formula (y : List ℝ) :
    (((firFilter b1coefs y).drop 2).dropLast) =
      ((((List.range y.length).map
        (fun n => y.getD n 0 - 2 * y.getD (n - 1) 0 + y.getD (n - 2) 0)).drop 2).dropLast) := by
  apply List.ext_getElem
  · simp [firFilter]
  · intro i h1 h2
    simp only [List.getElem_dropLast, List.getElem_drop, List.getElem_map,
      List.getElem_range, firFilter, b1coefs]
    have e0 : (0 : ℕ) ≤ 2 + i := by omega
    have e1 : (1 : ℕ) ≤ 2 + i := by omega
    have e2 : (2 : ℕ) ≤ 2 + i := by omega
    simp [List.range_succ, e0, e1, e2]
    ring_nf

lemma fir_b2_formula (y : List ℝ) :
    (((firFilter b2coefs y).drop 4).dropLast) =
      ((((List.range y.length).map
        (fun n => y.getD n 0 - 2 * y.getD (n - 2) 0 + y.getD (n - 4) 0)).drop 4).dropLast) := by
  apply List.ext_getElem
  · simp [firFilter]
  · intro i h1 h2
    simp only [List.getElem_dropLast, List.getElem_drop, List.getElem_map,
      List.getElem_range, firFilter, b2coefs]
    have e0 : (0 : ℕ) ≤ 4 + i := by omega
    have e1 : (1 : ℕ) ≤ 4 + i := by omega
    have e2 : (2 : ℕ) ≤ 4 + i := by omega
    have e3 : (3 : ℕ) ≤ 4 + i := by omega
    have e4 : (4 : ℕ) ≤ 4 + i := by omega
    simp [List.range_succ, e0, e1, e2, e3, e4]
    ring_nf

/-- C9 (counterexample): the claim omits that the source also discards
the **final** filtered sample (`y[:, len(b) - 1:-1]`, note the `-1`
endpoint).  On the channel `[0, 2, 1, 5, 3, 9, 4, 2]` the code's
mean-square ratio is `2/123` while the claimed pipeline gives `41/51`,
so the two estimates differ. -/
theorem C9_counterexample :
    hurst [[0, 2, 1, 5, 3, 9, 4, 2]] ≠ hurstClaimed [[0, 2, 1, 5, 3, 9, 4, 2]] := by
  have hy : cumsum (diffL [0, 2, 1, 5, 3, 9, 4, 2]) = [2, 1, 5, 3, 9, 4, 2] := by
    norm_num [cumsum, diffL, List.scanl]
  have hf1 : firFilter b1coefs [2, 1, 5, 3, 9, 4, 2] = [2, -3, 5, -6, 8, -11, 3] := by
    norm_num [firFilter, b1coefs, List.range_succ]
  have hf2 : firFilter b2coefs [2, 1, 5, 3, 9, 4, 2] = [2, 1, 1, 1, 1, -1, -11] := by
    norm_num [firFilter, b2coefs, List.range_succ]
  have hcode : hurst [[0, 2, 1, 5, 3, 9, 4, 2]] =
      [0.5 * Real.logb 2 ((2 : ℝ) / 123)] := by
    simp only [hurst, List.map_cons, List.map_nil, hy, hf1, hf2]
    norm_num [meanSq, b1coefs, b2coefs]
  have hclaim : hurstClaimed [[0, 2, 1, 5, 3, 9, 4, 2]] =
      [0.5 * Real.logb 2 ((41 : ℝ) / 51)] := by
    simp only [hurstClaimed, List.map_cons, List.map_nil, hy, hf1, hf2]
    norm_num [meanSq, b1coefs, b2coefs]
  rw [hcode, hclaim]
  intro h
  have h1 : (0.5 : ℝ) * Real.logb 2 ((2 : ℝ) / 123) =
      0.5 * Real.logb 2 ((41 : ℝ) / 51) := by
    exact List.head_eq_of_cons_eq h
  have h2 : Real.logb 2 ((2 : ℝ) / 123) < Real.logb 2 ((41 : ℝ) / 51) :=
    Real.logb_lt_logb (by norm_num) (by norm_num) (by norm_num)
  nlinarith [h1, h2]

/-- C9 (amended): for every multichannel timeseries, the Hurst metric
returns per channel half the base-2 logarithm of the ratio of the
mean-squared outputs of the two second-order derivative FIR filters
(`[1,-2,1]` and `[1,0,-2,0,1]`) applied to the cumulative sum of the
first differences of the samples, where each filtered series drops both
the initial filter-artifact samples (`len(b) - 1` of them) **and the
final sample**. -/
theorem C9_hurst_formula (x : List (List ℝ)) :
    hurst x = x.map (fun ch =>
      let y := cumsum (diffL ch)
      let z1 := (List.range y.length).map
        (fun n => y.getD n 0 - 2 * y.getD (n - 1) 0 + y.getD (n - 2) 0)
      let z2 := (List.range y.length).map
        (fun n => y.getD n 0 - 2 * y.getD (n - 2) 0 + y.getD (n - 4) 0)
      0.5 * Real.logb 2 (meanSq ((z2.drop 4).dropLast) / meanSq ((z1.drop 2).dropLast))) := by
  apply List.map_congr_left
  intro ch _
  simp only
  rw [show b1coefs.length - 1 = 2 from rfl, show b2coefs.length - 1 = 4 from rfl,
    fir_b1_formula, fir_b2_formula]

end MneBads

/- ------------------------------------------------------------------ -/
/- Metric Library and Detection Orchestrator data plumbing             -/
/- ------------------------------------------------------------------ -/

namespace MneBads

/-- The Epochs collaborator: a data block of shape
(n_epochs × n_channels × n_samples), a sample rate, channel names, and
the per-channel `loc` vectors holding sensor and reference positions. -/
structure Epochs where
  data : List (List (List ℝ))
  sfreq : ℕ
  ch_names : List String
  chs_loc : List (List ℝ)

/-- Pearson correlation of two rows, as in `np.corrcoef`. -/
noncomputable def corrPair (u v : List ℝ) : ℝ :=
  ((List.zipWith (fun a b => (a - lmean u) * (b - lmean v)) u v).sum) /
    Real.sqrt (((u.map (fun a => (a - lmean u) ^ 2)).sum) *
      ((v.map (fun b => (b - lmean v) ^ 2)).sum))

/-- The correlation metric: mean of each channel's correlations with
every other channel, the self-correlation masked out
(`np.mean(np.ma.masked_array(np.corrcoef(x), np.identity(len(x))), axis=0)`). -/
noncomputable def corrMetric (x : List (List ℝ)) : List ℝ :=
  (List.range x.length).map (fun j =>
    ((((List.range x.length).filter (fun i => i ≠ j)).map
      (fun i => corrPair (x.getD i []) (x.getD j []))).sum) /
      ((x.length - 1 : ℕ) : ℝ))

/-- Fisher kurtosis `scipy.stats.kurtosis` (biased, excess):
`m4 / m2^2 - 3`. -/
noncomputable def kurtosisF (l : List ℝ) : ℝ :=
  ((l.map (fun v => (v - lmean l) ^ 4)).sum / l.length) /
    ((l.map (fun v => (v - lmean l) ^ 2)).sum / l.length) ^ 2 - 3

/-- `np.median`: middle element of the sorted list, or the average of
the two middle elements for even length. -/
noncomputable def medianR (l : List ℝ) : ℝ :=
  let s := l.mergeSort (fun a b => @decide (a ≤ b) (Classical.propDecidable _))
  if l.length % 2 = 1 then s.getD (l.length / 2) 0
  else (s.getD (l.length / 2 - 1) 0 + s.getD (l.length / 2) 0) / 2

/-- Per-channel grand mean across epochs (`np.mean(ch_mean, axis=0)`). -/
noncomputable def colMean (m : List (List ℝ)) (c : ℕ) : ℝ :=
  ((m.map (fun row => row.getD c 0)).sum) / m.length

/-- `_deviation(data)`: per-epoch, per-channel deviation of the
channel's time-mean from its grand mean across epochs. -/
noncomputable def deviationF (data : List (List (List ℝ))) : List (List ℝ) :=
  let ch_mean := data.map (fun ep => ep.map lmean)
  ch_mean.map (fun row =>
    (List.range row.length).map (fun c => row.getD c 0 - colMean ch_mean c))

/-- `epochs.get_data()[:, picks]`. -/
def pickData (data : List (List (List ℝ))) (picks : List ℕ) :
    List (List (List ℝ)) :=
  data.map (fun ep => picks.map (fun p => ep.getD p []))

/-- `data.transpose(1, 0, 2).reshape(n_picks, -1)` after picking:
per picked channel, the concatenation of its samples across epochs. -/
def concatData (data : List (List (List ℝ))) (picks : List ℕ) :
    List (List ℝ) :=
  picks.map (fun p => (data.map (fun ep => ep.getD p [])).flatten)

/-- Ordered-dictionary lookup on an association list (first match). -/
def lookupA {β : Type} (m : String) : List (String × β) → Option β
  | [] => none
  | p :: rest => if p.1 = m then some p.2 else lookupA m rest

/-- `metrics[metric](input)`: a missing key raises `KeyError`. -/
def applyMetric {α β : Type} (table : List (String × (α → Except String β)))
    (m : String) (input : α) : Except String β :=
  match lookupA m table with
  | some f => f input
  | none => .error ("KeyError: " ++ m)

/-- The bad-channel metric registry of `_find_bad_channels`
(faster_.py lines 230-239), in source order. -/
noncomputable def channelMetrics (psFun : List ℝ → ℕ → ℝ) (sfreq : ℕ) :
    List (String × (List (List ℝ) → Except String (List ℝ))) :=
  [("variance", fun x => .ok (x.map lvar)),
   ("correlation", fun x => .ok (corrMetric x)),
   ("hurst", fun x => .ok (hurst x)),
   ("kurtosis", fun x => .ok (x.map kurtosisF)),
   ("line_noise", fun x => freqs_power psFun x sfreq [50, 60])]

/-- Keys of the bad-channel metric registry. -/
def channelCatalog : List String :=
  ["variance", "correlation", "hurst", "kurtosis", "line_noise"]

/-- The bad-epoch metric registry of `_find_bad_epochs`
(faster_.py lines 287-291), in source order. -/
noncomputable def epochMetrics :
    List (String × (List (List (List ℝ)) → Except String (List ℝ))) :=
  [("amplitude", fun x => .ok (x.map (fun ep => lmean (ep.map ptp)))),
   ("deviation", fun x => .ok ((deviationF x).map lmean)),
   ("variance", fun x => .ok (x.map (fun ep => lmean (ep.map lvar))))]

/-- Keys of the bad-epoch metric registry. -/
def epochCatalog : List String := ["amplitude", "deviation", "variance"]

/-- The bad-channel-in-epoch metric registry of
`_find_bad_channels_in_epochs` (faster_.py lines 341-348), in source
order. -/
noncomputable def epochChMetrics (psFun : List ℝ → ℕ → ℝ) (sfreq : ℕ) :
    List (String × (List (List (List ℝ)) → Except String (List (List ℝ)))) :=
  [("amplitude", fun x => .ok (x.map (fun ep => ep.map ptp))),
   ("deviation", fun x => .ok (deviationF x)),
   ("variance", fun x => .ok (x.map (fun ep => ep.map lvar))),
   ("median_gradient", fun x => .ok (x.map (fun ep =>
     ep.map (fun ch => medianR ((diffL ch).map (fun v => |v|)))))),
   ("line_noise", fun x => freqs_power3 psFun x sfreq [50, 60])]

/-- Keys of the bad-channel-in-epoch metric registry. -/
def epochChCatalog : List String :=
  ["amplitude", "deviation", "variance", "median_gradient", "line_noise"]

end MneBads

/- ------------------------------------------------------------------ -/
/- `_find_bad_channels` (faster_.py lines 200-263)                     -/
/- ------------------------------------------------------------------ -/

namespace MneBads

/-- Append under a key with `defaultdict(list)` semantics followed by the
final per-key concatenation: an existing entry is extended, a fresh key
is appended at the end. -/
def addEntry {β : Type} (acc : List (String × List β)) (m : String)
    (v : List β) : List (String × List β) :=
  if acc.any (fun p => p.1 = m) then
    acc.map (fun p => if p.1 = m then (p.1, p.2 ++ v) else p)
  else acc ++ [(m, v)]

/-- Merge the ordered (metric, items) pairs produced by the group×metric
loops, mirroring `bads[metric].append(...)` followed by
`np.concatenate(v)` per key. -/
def dedupConcat {β : Type} : List (String × List β) → List (String × List β) →
    List (String × List β)
  | acc, [] => acc
  | acc, (m, v) :: rest => dedupConcat (addEntry acc m v) rest

/-- The flagged channel names for one (group, metric) score vector:
`[epochs.ch_names[picks[chs[i]]] for i in find_outliers(...)]`. -/
noncomputable def badChannelNames (e : Epochs) (picks chs : List ℕ)
    (scores : List ℝ) (thresh : ℝ) (max_iter : ℕ) : List String :=
  ((find_outliers scores thresh max_iter).sort (· ≤ ·)).map
    (fun i => e.ch_names.getD (picks.getD (chs.getD i 0) 0) "")

/-- Inner metric loop of `_find_bad_channels` for one channel group. -/
noncomputable def bcMetricLoop (psFun : List ℝ → ℕ → ℝ) (e : Epochs)
    (picks : List ℕ) (data : List (List ℝ)) (chs : List ℕ) (thresh : ℝ)
    (max_iter : ℕ) (eeg_ref_corr : Bool) :
    List String → Except String (List (String × List String))
  | [] => .ok []
  | m :: ms =>
    (applyMetric (channelMetrics psFun e.sfreq) m
        (chs.map (fun c => data.getD c []))).bind (fun scores =>
      (if eeg_ref_corr then distance_correction e.chs_loc picks scores
        else .ok scores).bind (fun scores2 =>
        (bcMetricLoop psFun e picks data chs thresh max_iter eeg_ref_corr ms).bind
          (fun rest =>
            .ok ((m, badChannelNames e picks chs scores2 thresh max_iter) :: rest))))

/-- Outer channel-group loop of `_find_bad_channels`
(`for ch_type, chs in _picks_by_type(info)`); the grouping produced by
the external `_picks_by_type` is a parameter. -/
noncomputable def bcGroupLoop (psFun : List ℝ → ℕ → ℝ) (e : Epochs)
    (picks : List ℕ) (data : List (List ℝ)) (thresh : ℝ) (max_iter : ℕ)
    (eeg_ref_corr : Bool) (use : List String) :
    List (List ℕ) → Except String (List (String × List String))
  | [] => .ok []
  | g :: gs =>
    (bcMetricLoop psFun e picks data g thresh max_iter eeg_ref_corr use).bind
      (fun pairs =>
        (bcGroupLoop psFun e picks data thresh max_iter eeg_ref_corr use gs).bind
          (fun rest => .ok (pairs ++ rest)))

/-- `_find_bad_channels(epochs, picks, use_metrics, thresh, max_iter,
eeg_ref_corr)`: concatenate epochs per channel, run each requested
metric per channel group, optionally correct for reference distance,
flag outliers, and gather the names per metric. -/
noncomputable def findBadChannelsF (psFun : List ℝ → ℕ → ℝ) (e : Epochs)
    (picks : List ℕ) (groups : List (List ℕ)) (use_metrics : Option (List String))
    (thresh : ℝ) (max_iter : ℕ) (eeg_ref_corr : Bool) :
    Except String (List (String × List String)) :=
  let use := use_metrics.getD channelCatalog
  let data := concatData e.data picks
  (bcGroupLoop psFun e picks data thresh max_iter eeg_ref_corr use groups).bind
    (fun pairs => .ok (dedupConcat [] pairs))

/- ------------------------------------------------------------------ -/
/- `_find_bad_epochs` (faster_.py lines 266-309)                       -/
/- ------------------------------------------------------------------ -/

/-- Inner metric loop of `_find_bad_epochs` for one channel group. -/
noncomputable def beMetricLoop (dataP : List (List (List ℝ))) (chs : List ℕ)
    (thresh : ℝ) (max_iter : ℕ) :
    List String → Except String (List (String × List ℕ))
  | [] => .ok []
  | m :: ms =>
    (applyMetric epochMetrics m
        (dataP.map (fun ep => chs.map (fun c => ep.getD c [])))).bind
      (fun scores =>
        (beMetricLoop dataP chs thresh max_iter ms).bind (fun rest =>
          .ok ((m, (find_outliers scores thresh max_iter).sort (· ≤ ·)) :: rest)))

/-- Outer channel-group loop of `_find_bad_epochs`. -/
noncomputable def beGroupLoop (dataP : List (List (List ℝ))) (thresh : ℝ)
    (max_iter : ℕ) (use : List String) :
    List (List ℕ) → Except String (List (String × List ℕ))
  | [] => .ok []
  | g :: gs =>
    (beMetricLoop dataP g thresh max_iter use).bind (fun pairs =>
      (beGroupLoop dataP thresh max_iter use gs).bind (fun rest =>
        .ok (pairs ++ rest)))

/-- `_find_bad_epochs(epochs, picks, use_metrics, thresh, max_iter)`. -/
noncomputable def findBadEpochsF (e : Epochs) (picks : List ℕ)
    (groups : List (List ℕ)) (use_metrics : Option (List String)) (thresh : ℝ)
    (max_iter : ℕ) : Except String (List (String × List ℕ)) :=
  let use := use_metrics.getD epochCatalog
  let dataP := pickData e.data picks
  (beGroupLoop dataP thresh max_iter use groups).bind
    (fun pairs => .ok (dedupConcat [] pairs))

/- ------------------------------------------------------------------ -/
/- `_find_bad_channels_in_epochs` (faster_.py lines 312-374)           -/
/- ------------------------------------------------------------------ -/

/-- An all-`False` boolean mask of shape (n_epochs, n_picks)
(`np.zeros((len(data), len(picks)), dtype=bool)`). -/
def zerosMask (nE nP : ℕ) : List (List Bool) :=
  List.replicate nE (List.replicate nP false)

/-- Set the given column indices of a row to `True`. -/
def setTrueRow (row : List Bool) (cols : List ℕ) : List Bool :=
  cols.foldl (fun r c => r.set c true) row

/-- `bads[metric][i_epochs, chs[outliers]] = True`. -/
def setTrueAt (mask : List (List Bool)) (i : ℕ) (cols : List ℕ) :
    List (List Bool) :=
  mask.set i (setTrueRow (mask.getD i []) cols)

/-- Replace the value stored under a key of an association list. -/
def updateAssoc {β : Type} (assoc : List (String × β)) (m : String) (v : β) :
    List (String × β) :=
  assoc.map (fun p => if p.1 = m then (p.1, v) else p)

/-- Per-epoch loop of `_find_bad_channels_in_epochs` for one metric's
score surface (`for i_epochs, scores in enumerate(s_epochs)`). -/
noncomputable def ceEpochLoop (e : Epochs) (picks g : List ℕ) (thresh : ℝ)
    (max_iter : ℕ) (eeg_ref_corr : Bool) :
    List (List ℝ) → ℕ → List (List Bool) → Except String (List (List Bool))
  | [], _, mask => .ok mask
  | scores :: rest, i, mask =>
    (if eeg_ref_corr then distance_correction e.chs_loc picks scores
      else .ok scores).bind (fun scores2 =>
      let outliers := (find_outliers scores2 thresh max_iter).sort (· ≤ ·)
      let mask2 := if outliers.length > 0 then
          setTrueAt mask i (outliers.map (fun k => g.getD k 0))
        else mask
      ceEpochLoop e picks g thresh max_iter eeg_ref_corr rest (i + 1) mask2)

/-- Metric loop of `_find_bad_channels_in_epochs` for one channel
group, threading the per-metric masks. -/
noncomputable def ceMetricLoop (psFun : List ℝ → ℕ → ℝ) (e : Epochs)
    (picks : List ℕ) (dataP : List (List (List ℝ))) (g : List ℕ) (thresh : ℝ)
    (max_iter : ℕ) (eeg_ref_corr : Bool) :
    List String → List (String × List (List Bool)) →
      Except String (List (String × List (List Bool)))
  | [], assoc => .ok assoc
  | m :: ms, assoc =>
    (applyMetric (epochChMetrics psFun e.sfreq) m
        (dataP.map (fun ep => g.map (fun c => ep.getD c [])))).bind
      (fun s_epochs =>
        (ceEpochLoop e picks g thresh max_iter eeg_ref_corr s_epochs 0
            ((lookupA m assoc).getD [])).bind (fun mask2 =>
          ceMetricLoop psFun e picks dataP g thresh max_iter eeg_ref_corr ms
            (updateAssoc assoc m mask2)))

/-- Channel-group loop of `_find_bad_channels_in_epochs`. -/
noncomputable def ceGroupLoop (psFun : List ℝ → ℕ → ℝ) (e : Epochs)
    (picks : List ℕ) (dataP : List (List (List ℝ))) (thresh : ℝ) (max_iter : ℕ)
    (eeg_ref_corr : Bool) (use : List String) :
    List (List ℕ) → List (String × List (List Bool)) →
      Except String (List (String × List (List Bool)))
  | [], assoc => .ok assoc
  | g :: gs, assoc =>
    (ceMetricLoop psFun e picks dataP g thresh max_iter eeg_ref_corr use assoc).bind
      (fun assoc2 =>
        ceGroupLoop psFun e picks dataP thresh max_iter eeg_ref_corr use gs assoc2)

/-- `_find_bad_channels_in_epochs(epochs, picks, use_metrics, thresh,
max_iter, eeg_ref_corr)`: every metric of the registry starts with an
all-`False` (n_epochs × n_picks) mask; requested metrics flag outliers
per epoch within each channel group. -/
noncomputable def findBadChannelsInEpochsF (psFun : List ℝ → ℕ → ℝ)
    (e : Epochs) (picks : List ℕ) (groups : List (List ℕ))
    (use_metrics : Option (List String)) (thresh : ℝ) (max_iter : ℕ)
    (eeg_ref_corr : Bool) :
    Except String (List (String × List (List Bool))) :=
  let use := use_metrics.getD epochChCatalog
  let dataP := pickData e.data picks
  let init := epochChCatalog.map (fun m => (m, zerosMask dataP.length picks.length))
  ceGroupLoop psFun e picks dataP thresh max_iter eeg_ref_corr use groups init

end MneBads

/- ------------------------------------------------------------------ -/
/- Entry operations (bads.py)                                          -/
/- ------------------------------------------------------------------ -/

namespace MneBads

/-- The FASTER method parameters of the three entry operations. -/
structure MethodParams where
  use_metrics : Option (List String)
  thresh : ℝ
  max_iter : ℕ
  eeg_ref_corr : Bool

/-- Modelled from the spec: the default method parameters (§6: z-score
threshold 3.0, maximum iteration count 1, reference-distance correction
off, metric selection unspecified). -/
noncomputable def defaultParams : MethodParams :=
  { use_metrics := none, thresh := 3, max_iter := 1, eeg_ref_corr := false }

/-- Modelled from the spec: `_handle_default(key, method_params)` from
`mne_sandbox/defaults.py`, which is not under `src/` (§1 places
"user-facing configuration merging" out of scope).  It resolves the
per-level defaults table for the given key — the three FASTER levels
are the known keys — merging in the caller's partial parameters, and
fails on an unknown key as a Python dict access does. -/
noncomputable def handle_default (key : String) (params : Option MethodParams) :
    Except String MethodParams :=
  if key = "bad_channels_faster" ∨ key = "bad_epochs_faster" ∨
      key = "bad_channels_in_epochs_faster" then
    .ok (params.getD defaultParams)
  else .error ("KeyError: " ++ key)

/-- `_combine_indices(bads)`: the deduplicated union of the per-metric
item lists. -/
def combineIndices {β : Type} [DecidableEq β] (bads : List (String × List β)) :
    List β :=
  ((bads.map Prod.snd).flatten).dedup

/-- The error raised for any method other than `'faster'`. -/
def unsupportedMethodMsg : String :=
  "Come back later, for now there is only \"FASTER\""

/-- `find_bad_channels(epochs, picks, method, method_params,
return_by_metric)` (bads.py lines 14-92). -/
noncomputable def find_bad_channels (psFun : List ℝ → ℕ → ℝ) (e : Epochs)
    (picks : List ℕ) (groups : List (List ℕ)) (method : String)
    (method_params : Option MethodParams) (return_by_metric : Bool) :
    Except String ((List (String × List String)) ⊕ (List String)) :=
  (handle_default ("bad_channels" ++ "_" ++ method) method_params).bind (fun p =>
    if method = "faster" then
      (findBadChannelsF psFun e picks groups p.use_metrics p.thresh p.max_iter
          p.eeg_ref_corr).bind (fun bads =>
        .ok (if return_by_metric then .inl bads else .inr (combineIndices bads)))
    else .error unsupportedMethodMsg)

/-- `find_bad_epochs(epochs, picks, return_by_metric, method,
method_params)` (bads.py lines 96-166). -/
noncomputable def find_bad_epochs (e : Epochs) (picks : List ℕ)
    (groups : List (List ℕ)) (method : String)
    (method_params : Option MethodParams) (return_by_metric : Bool) :
    Except String ((List (String × List ℕ)) ⊕ (List ℕ)) :=
  (handle_default ("bad_epochs" ++ "_" ++ method) method_params).bind (fun p =>
    if method = "faster" then
      (findBadEpochsF e picks groups p.use_metrics p.thresh p.max_iter).bind
        (fun bads =>
          .ok (if return_by_metric then .inl bads else .inr (combineIndices bads)))
    else .error unsupportedMethodMsg)

/-- Pointwise OR of two boolean masks
(`np.sum([...], axis=0).astype(bool)` for two operands). -/
def or2 (a b : List (List Bool)) : List (List Bool) :=
  List.zipWith (fun r s => List.zipWith (· || ·) r s) a b

/-- OR-combination of the per-metric masks
(`np.sum(list(bads.values()), axis=0).astype(bool)`). -/
def orMasks : List (List (List Bool)) → List (List Bool)
  | [] => []
  | h :: t => t.foldl or2 h

/-- `_bad_mask_to_names(info, bad_mask)`: per epoch, the names of the
channels whose mask entry is `True`. -/
def badMaskToNames (chNames : List String) (mask : List (List Bool)) :
    List (List String) :=
  mask.map (fun row =>
    (((List.range row.length).filter (fun c => row.getD c false)).map
      (fun c => chNames.getD c "")))

/-- `find_bad_channels_in_epochs(epochs, picks, method, method_params,
return_by_metric)` (bads.py lines 170-252). -/
noncomputable def find_bad_channels_in_epochs (psFun : List ℝ → ℕ → ℝ)
    (e : Epochs) (picks : List ℕ) (groups : List (List ℕ)) (method : String)
    (method_params : Option MethodParams) (return_by_metric : Bool) :
    Except String ((List (String × List (List String))) ⊕ (List (List String))) :=
  (handle_default ("bad_channels_in_epochs" ++ "_" ++ method) method_params).bind
    (fun p =>
      if method = "faster" then
        (findBadChannelsInEpochsF psFun e picks groups p.use_metrics p.thresh
            p.max_iter p.eeg_ref_corr).bind (fun bads =>
          let names := picks.map (fun c => e.ch_names.getD c "")
          .ok (if return_by_metric then
              .inl (bads.map (fun q => (q.1, badMaskToNames names q.2)))
            else .inr (badMaskToNames names (orMasks (bads.map Prod.snd)))))
      else .error unsupportedMethodMsg)

end MneBads

/- ------------------------------------------------------------------ -/
/- C7                                                                  -/
/- ------------------------------------------------------------------ -/

namespace MneBads

/-- C7: for any method other than `'faster'`, each of the three entry
operations fails with an error before computing any metric scores and
never returns a result. -/
theorem C7_unsupported_method (psFun : List ℝ → ℕ → ℝ) (e : Epochs)
    (picks : List ℕ) (groups : List (List ℕ)) (method : String)
    (mp : Option MethodParams) (rbm : Bool) (h : method ≠ "faster") :
    (∃ msg, find_bad_channels psFun e picks groups method mp rbm = .error msg) ∧
      (∃ msg, find_bad_epochs e picks groups method mp rbm = .error msg) ∧
      (∃ msg, find_bad_channels_in_epochs psFun e picks groups method mp rbm =
        .error msg) := by
  refine ⟨?_, ?_, ?_⟩
  · by_cases hk : ("bad_channels_" ++ method = "bad_channels_faster" ∨
        "bad_channels_" ++ method = "bad_epochs_faster" ∨
        "bad_channels_" ++ method = "bad_channels_in_epochs_faster")
    · exact ⟨unsupportedMethodMsg, by
        simp [find_bad_channels, handle_default, hk, h, Except.bind]⟩
    · exact ⟨"KeyError: " ++ ("bad_channels_" ++ method), by
        simp [find_bad_channels, handle_default, hk, Except.bind]⟩
  · by_cases hk : ("bad_epochs_" ++ method = "bad_channels_faster" ∨
        "bad_epochs_" ++ method = "bad_epochs_faster" ∨
        "bad_epochs_" ++ method = "bad_channels_in_epochs_faster")
    · exact ⟨unsupportedMethodMsg, by
        simp [find_bad_epochs, handle_default, hk, h, Except.bind]⟩
    · exact ⟨"KeyError: " ++ ("bad_epochs_" ++ method), by
        simp [find_bad_epochs, handle_default, hk, Except.bind]⟩
  · by_cases hk : ("bad_channels_in_epochs_" ++ method = "bad_channels_faster" ∨
        "bad_channels_in_epochs_" ++ method = "bad_epochs_faster" ∨
        "bad_channels_in_epochs_" ++ method = "bad_channels_in_epochs_faster")
    · exact ⟨unsupportedMethodMsg, by
        simp [find_bad_channels_in_epochs, handle_default, hk, h, Except.bind]⟩
    · exact ⟨"KeyError: " ++ ("bad_channels_in_epochs_" ++ method), by
        simp [find_bad_channels_in_epochs, handle_default, hk, Except.bind]⟩

/-- Witness for `C7_unsupported_method` with `method = "autoreject"` on
an empty recording. -/
theorem C7_unsupported_method_witness :
    ("autoreject" ≠ "faster") ∧
      ((∃ msg, find_bad_channels (fun _ _ => 0) ⟨[], 0, [], []⟩ [] [] "autoreject"
          none false = .error msg) ∧
        (∃ msg, find_bad_epochs ⟨[], 0, [], []⟩ [] [] "autoreject" none false =
          .error msg) ∧
        (∃ msg, find_bad_channels_in_epochs (fun _ _ => 0) ⟨[], 0, [], []⟩ [] []
          "autoreject" none false = .error msg)) :=
  ⟨by decide, C7_unsupported_method (fun _ _ => 0) ⟨[], 0, [], []⟩ [] []
    "autoreject" none false (by decide)⟩

end MneBads

/- ------------------------------------------------------------------ -/
/- C8                                                                  -/
/- ------------------------------------------------------------------ -/

namespace MneBads

/-- C8: with `use_metrics = None`, each detection level runs exactly the
keys of its fixed metric registry: variance/correlation/hurst/kurtosis/
line_noise for bad channels, amplitude/variance/deviation for bad
epochs, and amplitude/variance/deviation/median_gradient/line_noise for
bad channels in epochs. -/
theorem C8_default_catalogs (psFun : List ℝ → ℕ → ℝ) (e : Epochs)
    (picks : List ℕ) (groups : List (List ℕ)) (thresh : ℝ) (max_iter : ℕ)
    (corr : Bool) :
    findBadChannelsF psFun e picks groups none thresh max_iter corr =
        findBadChannelsF psFun e picks groups (some channelCatalog) thresh
          max_iter corr ∧
      findBadEpochsF e picks groups none thresh max_iter =
        findBadEpochsF e picks groups (some epochCatalog) thresh max_iter ∧
      findBadChannelsInEpochsF psFun e picks groups none thresh max_iter corr =
        findBadChannelsInEpochsF psFun e picks groups (some epochChCatalog)
          thresh max_iter corr ∧
      (channelMetrics psFun e.sfreq).map Prod.fst = channelCatalog ∧
      epochMetrics.map Prod.fst = epochCatalog ∧
      (epochChMetrics psFun e.sfreq).map Prod.fst = epochChCatalog ∧
      channelCatalog = ["variance", "correlation", "hurst", "kurtosis",
        "line_noise"] ∧
      epochCatalog.Perm ["amplitude", "variance", "deviation"] ∧
      epochChCatalog.Perm ["amplitude", "variance", "deviation",
        "median_gradient", "line_noise"] :=
  ⟨rfl, rfl, rfl, rfl, rfl, rfl, rfl, by decide, by decide⟩

end MneBads

/- ------------------------------------------------------------------ -/
/- C6                                                                  -/
/- ------------------------------------------------------------------ -/

namespace MneBads

/-- C6: the `line_noise` entry of the bad-channel metric registry is the
Welch power summed at 50 Hz and 60 Hz; on success each channel's value
is the power at the 50 Hz bin plus the power at the 60 Hz bin, and the
metric raises the `ValueError` describing the conflict (and suggesting
disabling the metric) exactly when some target frequency lies beyond
every computed frequency. -/
theorem C6_line_noise_spec (psFun : List ℝ → ℕ → ℝ) (sfreq : ℕ)
    (x : List (List ℝ)) :
    (∀ input : List (List ℝ),
        applyMetric (channelMetrics psFun sfreq) "line_noise" input =
          freqs_power psFun input sfreq [50, 60]) ∧
      ((∀ f ∈ [(50 : ℚ), 60],
          searchsorted (welchFreqs (x.headD []).length sfreq) f <
            (welchFreqs (x.headD []).length sfreq).length) →
        freqs_power psFun x sfreq [50, 60] = .ok (x.map (fun ch =>
          psFun ch (searchsorted (welchFreqs (x.headD []).length sfreq) 50) +
            psFun ch (searchsorted (welchFreqs (x.headD []).length sfreq) 60)))) ∧
      (freqs_power psFun x sfreq [50, 60] = .error (lineNoiseMsgFor [50, 60]) ↔
        ∃ f ∈ [(50 : ℚ), 60], ∀ v ∈ welchFreqs (x.headD []).length sfreq, v < f) := by
  refine ⟨?_, ?_, ?_⟩
  · intro input
    simp [applyMetric, lookupA, channelMetrics]
  · intro h
    simp only [freqs_power]
    rw [if_pos h]
    simp
  · constructor
    · intro herr
      by_cases hc : ∀ f ∈ [(50 : ℚ), 60],
          searchsorted (welchFreqs (x.headD []).length sfreq) f <
            (welchFreqs (x.headD []).length sfreq).length
      · exfalso
        simp only [freqs_power] at herr
        rw [if_pos hc] at herr
        exact Except.noConfusion herr
      · push_neg at hc
        rcases hc with ⟨f, hf, hle⟩
        refine ⟨f, hf, ?_⟩
        have heq : searchsorted (welchFreqs (x.headD []).length sfreq) f =
            (welchFreqs (x.headD []).length sfreq).length :=
          le_antisymm (List.countP_le_length _) hle
        intro v hv
        have := List.countP_eq_length.mp heq v hv
        simpa using this
    · rintro ⟨f, hf, hall⟩
      have hc : ¬ ∀ f ∈ [(50 : ℚ), 60],
          searchsorted (welchFreqs (x.headD []).length sfreq) f <
            (welchFreqs (x.headD []).length sfreq).length := by
        intro hforall
        have heq : searchsorted (welchFreqs (x.headD []).length sfreq) f =
            (welchFreqs (x.headD []).length sfreq).length :=
          List.countP_eq_length.mpr (fun v hv => by simpa using hall v hv)
        have := hforall f hf
        omega
      simp only [freqs_power]
      rw [if_neg hc]

/-- Witness for `C6_line_noise_spec`: at `sfreq = 4` on four samples the
Welch grid is `[0, 1, 2]` Hz, so both 50 Hz and 60 Hz are unreachable
and the metric errors out. -/
theorem C6_line_noise_spec_witness :
    (∃ f ∈ [(50 : ℚ), 60], ∀ v ∈ welchFreqs 4 4, v < f) ∧
      freqs_power (fun _ _ => 0) [[1, 1, 1, 1]] 4 [50, 60] =
        .error (lineNoiseMsgFor [50, 60]) := by
  have hfs : welchFreqs 4 4 = [0, 1, 2] := by
    norm_num [welchFreqs, nperseg, Nat.log2, List.range_succ]
  have hex : ∃ f ∈ [(50 : ℚ), 60], ∀ v ∈ welchFreqs 4 4, v < f := by
    refine ⟨50, by norm_num, ?_⟩
    rw [hfs]
    intro v hv
    fin_cases hv <;> norm_num
  exact ⟨hex, (C6_line_noise_spec (fun _ _ => 0) 4 [[1, 1, 1, 1]]).2.2.mpr hex⟩

end MneBads

/- ------------------------------------------------------------------ -/
/- Mask and association-list invariants for C5 / C10                   -/
/- ------------------------------------------------------------------ -/

namespace MneBads

/-- A boolean mask has shape (nE, nP). -/
def MaskShape (nE nP : ℕ) (v : List (List Bool)) : Prop :=
  v.length = nE ∧ ∀ row ∈ v, row.length = nP

lemma zerosMask_shape (nE nP : ℕ) : MaskShape nE nP (zerosMask nE nP) := by
  constructor
  · simp [zerosMask]
  · intro row hrow
    rw [List.eq_of_mem_replicate hrow]
    simp

lemma setTrueRow_length (cols : List ℕ) : ∀ row : List Bool,
    (setTrueRow row cols).length = row.length := by
  induction cols with
  | nil => intro row; rfl
  | cons c cs ih =>
    intro row
    simp only [setTrueRow, List.foldl_cons] at *
    rw [ih (row.set c true), List.length_set]

lemma setTrueAt_shape {nE nP : ℕ} {mask : List (List Bool)} (i : ℕ)
    (cols : List ℕ) (h : MaskShape nE nP mask) :
    MaskShape nE nP (setTrueAt mask i cols) := by
  rcases h with ⟨hlen, hrows⟩
  by_cases hi : i < mask.length
  · constructor
    · simp [setTrueAt, hlen]
    · intro row hrow
      rcases List.mem_or_eq_of_mem_set hrow with hmem | rfl
      · exact hrows row hmem
      · rw [setTrueRow_length]
        have hgd : mask.getD i [] = mask[i] := by
          simp [List.getD_eq_getElem?_getD, List.getElem?_eq_getElem hi]
        rw [hgd]
        exact hrows _ (List.getElem_mem hi)
  · have : mask.set i (setTrueRow (mask.getD i []) cols) = mask :=
      List.set_eq_of_length_le (by omega)
    rw [setTrueAt, this]
    exact ⟨hlen, hrows⟩

lemma updateAssoc_keys {β : Type} (assoc : List (String × β)) (m : String)
    (v : β) : (updateAssoc assoc m v).map Prod.fst = assoc.map Prod.fst := by
  simp only [updateAssoc, List.map_map]
  apply List.map_congr_left
  intro p _
  by_cases hp : p.1 = m <;> simp [hp]

lemma lookupA_updateAssoc_ne {β : Type} (assoc : List (String × β))
    (m m' : String) (v : β) (h : m' ≠ m) :
    lookupA m' (updateAssoc assoc m v) = lookupA m' assoc := by
  induction assoc with
  | nil => rfl
  | cons p rest ih =>
    obtain ⟨a, b⟩ := p
    by_cases ham : a = m
    · have hstep : updateAssoc ((a, b) :: rest) m v = (a, v) :: updateAssoc rest m v := by
        simp [updateAssoc, ham]
      rw [hstep]
      simp only [lookupA]
      have hne : ¬ a = m' := by rw [ham]; exact fun hc => h hc.symm
      rw [if_neg hne, if_neg hne]
      exact ih
    · have hstep : updateAssoc ((a, b) :: rest) m v = (a, b) :: updateAssoc rest m v := by
        simp [updateAssoc, ham]
      rw [hstep]
      simp only [lookupA]
      by_cases ha' : a = m'
      · rw [if_pos ha', if_pos ha']
      · rw [if_neg ha', if_neg ha']
        exact ih

lemma updateAssoc_shape {nE nP : ℕ} (assoc : List (String × List (List Bool)))
    (m : String) (v : List (List Bool))
    (hshape : ∀ p ∈ assoc, MaskShape nE nP p.2) (hv : MaskShape nE nP v) :
    ∀ p ∈ updateAssoc assoc m v, MaskShape nE nP p.2 := by
  intro p hp
  rcases List.mem_map.mp hp with ⟨q, hq, rfl⟩
  by_cases hqm : q.1 = m <;> simp [hqm]
  · exact hv
  · exact hshape q hq

lemma updateAssoc_id {β : Type} (assoc : List (String × β)) (m : String)
    (v : β) (h : ∀ p ∈ assoc, p.1 ≠ m) : updateAssoc assoc m v = assoc := by
  unfold updateAssoc
  conv_rhs => rw [← List.map_id assoc]
  apply List.map_congr_left
  intro p hp
  rw [if_neg (h p hp)]
  rfl

lemma lookupA_mem {β : Type} {assoc : List (String × β)} {m : String} {v : β}
    (h : lookupA m assoc = some v) : (m, v) ∈ assoc := by
  induction assoc with
  | nil => exact Option.noConfusion h
  | cons p rest ih =>
    obtain ⟨a, b⟩ := p
    by_cases hp : a = m
    · rw [lookupA, if_pos hp] at h
      obtain rfl : b = v := Option.some.inj h
      rw [← hp]
      exact List.mem_cons_self _ _
    · rw [lookupA, if_neg hp] at h
      exact List.mem_cons_of_mem _ (ih h)

lemma lookupA_eq_none {β : Type} {assoc : List (String × β)} {m : String}
    (h : lookupA m assoc = none) : ∀ p ∈ assoc, p.1 ≠ m := by
  induction assoc with
  | nil => intro p hp; exact absurd hp (List.not_mem_nil p)
  | cons q rest ih =>
    by_cases hq : q.1 = m
    · rw [lookupA, if_pos hq] at h
      exact Option.noConfusion h
    · rw [lookupA, if_neg hq] at h
      intro p hp
      rcases List.mem_cons.mp hp with rfl | hp2
      · exact hq
      · exact ih h p hp2

lemma lookupA_of_mem_nodup {β : Type} {assoc : List (String × β)}
    (hnd : (assoc.map Prod.fst).Nodup) {p : String × β} (hp : p ∈ assoc) :
    lookupA p.1 assoc = some p.2 := by
  induction assoc with
  | nil => exact absurd hp (List.not_mem_nil p)
  | cons q rest ih =>
    rcases List.mem_cons.mp hp with rfl | hp2
    · rw [lookupA, if_pos rfl]
    · have hq : q.1 ≠ p.1 := by
        intro hc
        have : p.1 ∈ rest.map Prod.fst := List.mem_map_of_mem _ hp2
        rw [List.map_cons, List.nodup_cons] at hnd
        exact hnd.1 (hc ▸ this)
      rw [lookupA, if_neg hq]
      exact ih ((List.nodup_cons.mp (by simpa using hnd)).2) hp2

lemma lookupA_map_mk {β : Type} (z : β) (l : List String) (m : String) :
    lookupA m (l.map (fun k => (k, z))) = if m ∈ l then some z else none := by
  induction l with
  | nil => simp [lookupA]
  | cons k rest ih =>
    simp only [List.map_cons, lookupA]
    by_cases hk : k = m
    · subst hk
      simp
    · rw [if_neg hk, ih]
      by_cases hm : m ∈ rest
      · simp [hm, List.mem_cons, Ne.symm hk]
      · simp [hm, List.mem_cons, Ne.symm hk]

lemma zip_or_false_left (r : List Bool) :
    List.zipWith (· || ·) (List.replicate r.length false) r = r := by
  induction r with
  | nil => rfl
  | cons b t ih => simp [List.replicate_succ, ih]

lemma zip_or_false_right (r : List Bool) :
    List.zipWith (· || ·) r (List.replicate r.length false) = r := by
  induction r with
  | nil => rfl
  | cons b t ih => simp [List.replicate_succ, ih]

lemma or2_zeros_left {nE nP : ℕ} {w : List (List Bool)}
    (h : MaskShape nE nP w) : or2 (zerosMask nE nP) w = w := by
  rcases h with ⟨hlen, hrows⟩
  subst hlen
  unfold or2 zerosMask
  induction w with
  | nil => rfl
  | cons r t ih =>
    simp only [List.length_cons, List.replicate_succ, List.zipWith_cons_cons]
    rw [ih (fun row hrow => hrows row (List.mem_cons_of_mem _ hrow))]
    rw [← hrows r (List.mem_cons_self r t), zip_or_false_left]

lemma or2_zeros_right {nE nP : ℕ} {w : List (List Bool)}
    (h : MaskShape nE nP w) : or2 w (zerosMask nE nP) = w := by
  rcases h with ⟨hlen, hrows⟩
  subst hlen
  unfold or2 zerosMask
  induction w with
  | nil => rfl
  | cons r t ih =>
    simp only [List.length_cons, List.replicate_succ, List.zipWith_cons_cons]
    rw [ih (fun row hrow => hrows row (List.mem_cons_of_mem _ hrow))]
    rw [← hrows r (List.mem_cons_self r t), zip_or_false_right]

lemma or2_self (w : List (List Bool)) : or2 w w = w := by
  unfold or2
  rw [List.zipWith_same]
  have : ∀ r : List Bool, List.zipWith (· || ·) r r = r := by
    intro r
    rw [List.zipWith_same]
    simp
  simp only [this]
  exact List.map_id w

end MneBads

namespace MneBads

lemma ceEpochLoop_shape {nE nP : ℕ} (e : Epochs) (picks g : List ℕ)
    (thresh : ℝ) (mi : ℕ) (corr : Bool) :
    ∀ (sc : List (List ℝ)) (i : ℕ) (mask out : List (List Bool)),
      ceEpochLoop e picks g thresh mi corr sc i mask = .ok out →
      MaskShape nE nP mask → MaskShape nE nP out := by
  intro sc
  induction sc with
  | nil =>
    intro i mask out h hm
    simp only [ceEpochLoop] at h
    obtain rfl := Except.ok.inj h
    exact hm
  | cons scores rest ih =>
    intro i mask out h hm
    simp only [ceEpochLoop] at h
    cases hdc : (if corr then distance_correction e.chs_loc picks scores
        else Except.ok scores) with
    | error msg =>
      rw [hdc] at h
      exact absurd h (by simp [Except.bind])
    | ok s2 =>
      rw [hdc] at h
      simp only [Except.bind] at h
      apply ih _ _ _ h
      split_ifs
      · exact setTrueAt_shape _ _ hm
      · exact hm

lemma ceMetricLoop_keys (psFun : List ℝ → ℕ → ℝ) (e : Epochs) (picks : List ℕ)
    (dataP : List (List (List ℝ))) (g : List ℕ) (thresh : ℝ) (mi : ℕ)
    (corr : Bool) :
    ∀ (ms : List String) (assoc out : List (String × List (List Bool))),
      ceMetricLoop psFun e picks dataP g thresh mi corr ms assoc = .ok out →
      out.map Prod.fst = assoc.map Prod.fst := by
  intro ms
  induction ms with
  | nil =>
    intro assoc out h
    obtain rfl := Except.ok.inj h
    rfl
  | cons m ms ih =>
    intro assoc out h
    simp only [ceMetricLoop] at h
    cases ha : applyMetric (epochChMetrics psFun e.sfreq) m
        (dataP.map (fun ep => g.map (fun c => ep.getD c []))) with
    | error msg =>
      rw [ha] at h
      exact absurd h (by simp [Except.bind])
    | ok s_epochs =>
      rw [ha] at h
      simp only [Except.bind] at h
      cases hb : ceEpochLoop e picks g thresh mi corr s_epochs 0
          ((lookupA m assoc).getD []) with
      | error msg =>
        rw [hb] at h
        exact absurd h (by simp [Except.bind])
      | ok mask2 =>
        rw [hb] at h
        simp only [Except.bind] at h
        rw [ih _ _ h, updateAssoc_keys]

lemma ceMetricLoop_shape {nE nP : ℕ} (psFun : List ℝ → ℕ → ℝ) (e : Epochs)
    (picks : List ℕ) (dataP : List (List (List ℝ))) (g : List ℕ) (thresh : ℝ)
    (mi : ℕ) (corr : Bool) :
    ∀ (ms : List String) (assoc out : List (String × List (List Bool))),
      ceMetricLoop psFun e picks dataP g thresh mi corr ms assoc = .ok out →
      (∀ p ∈ assoc, MaskShape nE nP p.2) → (∀ p ∈ out, MaskShape nE nP p.2) := by
  intro ms
  induction ms with
  | nil =>
    intro assoc out h hs
    obtain rfl := Except.ok.inj h
    exact hs
  | cons m ms ih =>
    intro assoc out h hs
    simp only [ceMetricLoop] at h
    cases ha : applyMetric (epochChMetrics psFun e.sfreq) m
        (dataP.map (fun ep => g.map (fun c => ep.getD c []))) with
    | error msg =>
      rw [ha] at h
      exact absurd h (by simp [Except.bind])
    | ok s_epochs =>
      rw [ha] at h
      simp only [Except.bind] at h
      cases hb : ceEpochLoop e picks g thresh mi corr s_epochs 0
          ((lookupA m assoc).getD []) with
      | error msg =>
        rw [hb] at h
        exact absurd h (by simp [Except.bind])
      | ok mask2 =>
        rw [hb] at h
        simp only [Except.bind] at h
        apply ih _ _ h
        cases hlk : lookupA m assoc with
        | some v0 =>
          have hv0 : MaskShape nE nP v0 := hs _ (lookupA_mem hlk)
          have hm2 : MaskShape nE nP mask2 := by
            apply ceEpochLoop_shape e picks g thresh mi corr s_epochs 0 _ _ hb
            rw [hlk]
            exact hv0
          exact updateAssoc_shape assoc m mask2 hs hm2
        | none =>
          rw [updateAssoc_id assoc m mask2 (lookupA_eq_none hlk)]
          exact hs

lemma ceMetricLoop_untouched (psFun : List ℝ → ℕ → ℝ) (e : Epochs)
    (picks : List ℕ) (dataP : List (List (List ℝ))) (g : List ℕ) (thresh : ℝ)
    (mi : ℕ) (corr : Bool) :
    ∀ (ms : List String) (assoc out : List (String × List (List Bool))),
      ceMetricLoop psFun e picks dataP g thresh mi corr ms assoc = .ok out →
      ∀ m', m' ∉ ms → lookupA m' out = lookupA m' assoc := by
  intro ms
  induction ms with
  | nil =>
    intro assoc out h m' _
    obtain rfl := Except.ok.inj h
    rfl
  | cons m ms ih =>
    intro assoc out h m' hm'
    have hne : m' ≠ m := fun hc => hm' (hc ▸ List.mem_cons_self m ms)
    have hnin : m' ∉ ms := fun hc => hm' (List.mem_cons_of_mem m hc)
    simp only [ceMetricLoop] at h
    cases ha : applyMetric (epochChMetrics psFun e.sfreq) m
        (dataP.map (fun ep => g.map (fun c => ep.getD c []))) with
    | error msg =>
      rw [ha] at h
      exact absurd h (by simp [Except.bind])
    | ok s_epochs =>
      rw [ha] at h
      simp only [Except.bind] at h
      cases hb : ceEpochLoop e picks g thresh mi corr s_epochs 0
          ((lookupA m assoc).getD []) with
      | error msg =>
        rw [hb] at h
        exact absurd h (by simp [Except.bind])
      | ok mask2 =>
        rw [hb] at h
        simp only [Except.bind] at h
        rw [ih _ _ h m' hnin, lookupA_updateAssoc_ne assoc m m' mask2 hne]

lemma ceGroupLoop_keys (psFun : List ℝ → ℕ → ℝ) (e : Epochs) (picks : List ℕ)
    (dataP : List (List (List ℝ))) (thresh : ℝ) (mi : ℕ) (corr : Bool)
    (use : List String) :
    ∀ (gs : List (List ℕ)) (assoc out : List (String × List (List Bool))),
      ceGroupLoop psFun e picks dataP thresh mi corr use gs assoc = .ok out →
      out.map Prod.fst = assoc.map Prod.fst := by
  intro gs
  induction gs with
  | nil =>
    intro assoc out h
    obtain rfl := Except.ok.inj h
    rfl
  | cons g gs ih =>
    intro assoc out h
    simp only [ceGroupLoop] at h
    cases ha : ceMetricLoop psFun e picks dataP g thresh mi corr use assoc with
    | error msg =>
      rw [ha] at h
      exact absurd h (by simp [Except.bind])
    | ok assoc2 =>
      rw [ha] at h
      simp only [Except.bind] at h
      rw [ih _ _ h, ceMetricLoop_keys psFun e picks dataP g thresh mi corr use
        assoc assoc2 ha]

lemma ceGroupLoop_shape {nE nP : ℕ} (psFun : List ℝ → ℕ → ℝ) (e : Epochs)
    (picks : List ℕ) (dataP : List (List (List ℝ))) (thresh : ℝ) (mi : ℕ)
    (corr : Bool) (use : List String) :
    ∀ (gs : List (List ℕ)) (assoc out : List (String × List (List Bool))),
      ceGroupLoop psFun e picks dataP thresh mi corr use gs assoc = .ok out →
      (∀ p ∈ assoc, MaskShape nE nP p.2) → (∀ p ∈ out, MaskShape nE nP p.2) := by
  intro gs
  induction gs with
  | nil =>
    intro assoc out h hs
    obtain rfl := Except.ok.inj h
    exact hs
  | cons g gs ih =>
    intro assoc out h hs
    simp only [ceGroupLoop] at h
    cases ha : ceMetricLoop psFun e picks dataP g thresh mi corr use assoc with
    | error msg =>
      rw [ha] at h
      exact absurd h (by simp [Except.bind])
    | ok assoc2 =>
      rw [ha] at h
      simp only [Except.bind] at h
      exact ih _ _ h (ceMetricLoop_shape psFun e picks dataP g thresh mi corr
        use assoc assoc2 ha hs)

lemma ceGroupLoop_untouched (psFun : List ℝ → ℕ → ℝ) (e : Epochs)
    (picks : List ℕ) (dataP : List (List (List ℝ))) (thresh : ℝ) (mi : ℕ)
    (corr : Bool) (use : List String) :
    ∀ (gs : List (List ℕ)) (assoc out : List (String × List (List Bool))),
      ceGroupLoop psFun e picks dataP thresh mi corr use gs assoc = .ok out →
      ∀ m', m' ∉ use → lookupA m' out = lookupA m' assoc := by
  intro gs
  induction gs with
  | nil =>
    intro assoc out h m' _
    obtain rfl := Except.ok.inj h
    rfl
  | cons g gs ih =>
    intro assoc out h m' hm'
    simp only [ceGroupLoop] at h
    cases ha : ceMetricLoop psFun e picks dataP g thresh mi corr use assoc with
    | error msg =>
      rw [ha] at h
      exact absurd h (by simp [Except.bind])
    | ok assoc2 =>
      rw [ha] at h
      simp only [Except.bind] at h
      rw [ih _ _ h m' hm', ceMetricLoop_untouched psFun e picks dataP g thresh
        mi corr use assoc assoc2 ha m' hm']

end MneBads

/- ------------------------------------------------------------------ -/
/- C10                                                                 -/
/- ------------------------------------------------------------------ -/

namespace MneBads

lemma pickData_length (data : List (List (List ℝ))) (picks : List ℕ) :
    (pickData data picks).length = data.length := by
  simp [pickData]

lemma initAssoc_keys (nE nP : ℕ) :
    ((epochChCatalog.map (fun m => (m, zerosMask nE nP))).map Prod.fst) =
      epochChCatalog := by
  rw [List.map_map]
  exact List.map_id epochChCatalog

/-- C10: whatever (sub)selection of metrics is requested, the per-metric
breakdown of `_find_bad_channels_in_epochs` carries an entry for every
metric of the registry, and any unrequested metric keeps its all-`False`
(n_epochs × n_selected_channels) mask. -/
theorem C10_unrequested_metrics (psFun : List ℝ → ℕ → ℝ) (e : Epochs)
    (picks : List ℕ) (groups : List (List ℕ)) (l : List String) (thresh : ℝ)
    (mi : ℕ) (corr : Bool) (masks : List (String × List (List Bool)))
    (h : findBadChannelsInEpochsF psFun e picks groups (some l) thresh mi corr =
      .ok masks) :
    masks.map Prod.fst = epochChCatalog ∧
      ∀ m ∈ epochChCatalog, m ∉ l →
        lookupA m masks = some (zerosMask e.data.length picks.length) := by
  simp only [findBadChannelsInEpochsF, Option.getD_some, pickData_length] at h
  constructor
  · rw [ceGroupLoop_keys _ _ _ _ _ _ _ _ _ _ _ h, initAssoc_keys]
  · intro m hm hml
    rw [ceGroupLoop_untouched _ _ _ _ _ _ _ _ _ _ _ h m hml, lookupA_map_mk,
      if_pos hm]

/-- Witness for `C10_unrequested_metrics`: one epoch, one channel,
`use_metrics = ['variance']`, `max_iter = 0`; all five masks stay
all-`False`. -/
theorem C10_unrequested_metrics_witness :
    (findBadChannelsInEpochsF (fun _ _ => 0) ⟨[[[1, 2]]], 1, ["A"], [[]]⟩ [0]
        [[0]] (some ["variance"]) 3 0 false =
      .ok (epochChCatalog.map (fun m => (m, zerosMask 1 1)))) ∧
      ((epochChCatalog.map (fun m => (m, zerosMask 1 1))).map Prod.fst =
          epochChCatalog ∧
        ∀ m ∈ epochChCatalog, m ∉ ["variance"] →
          lookupA m (epochChCatalog.map (fun m => (m, zerosMask 1 1))) =
            some (zerosMask 1 1)) := by
  have hfo : ∀ x : List ℝ, find_outliers x 3 0 = ∅ := fun x => rfl
  have heval : findBadChannelsInEpochsF (fun _ _ => 0)
      ⟨[[[1, 2]]], 1, ["A"], [[]]⟩ [0] [[0]] (some ["variance"]) 3 0 false =
      .ok (epochChCatalog.map (fun m => (m, zerosMask 1 1))) := by
    simp [findBadChannelsInEpochsF, ceGroupLoop, ceMetricLoop, ceEpochLoop,
      applyMetric, lookupA, epochChMetrics, pickData, epochChCatalog,
      updateAssoc, hfo, Except.bind, zerosMask]
  exact ⟨heval, C10_unrequested_metrics (fun _ _ => 0)
    ⟨[[[1, 2]]], 1, ["A"], [[]]⟩ [0] [[0]] ["variance"] 3 0 false _ heval⟩

end MneBads

/- ------------------------------------------------------------------ -/
/- C5                                                                  -/
/- ------------------------------------------------------------------ -/

namespace MneBads

lemma foldl_or2_eq (z V : List (List Bool)) (hzz : or2 z z = z)
    (hzV : or2 z V = V) (hVz : or2 V z = V) :
    ∀ (L : List (List (List Bool))) (acc : List (List Bool)),
      (∀ w ∈ L, w = z ∨ w = V) → (acc = z ∨ acc = V) →
      ((L.foldl or2 acc = z ∨ L.foldl or2 acc = V) ∧
        ((acc = V ∨ V ∈ L) → L.foldl or2 acc = V)) := by
  intro L
  induction L with
  | nil =>
    intro acc _ hacc
    refine ⟨hacc, ?_⟩
    rintro (rfl | hmem)
    · rfl
    · exact absurd hmem (List.not_mem_nil V)
  | cons w t ih =>
    intro acc hall hacc
    simp only [List.foldl_cons]
    have hw : w = z ∨ w = V := hall w (List.mem_cons_self w t)
    have hall2 : ∀ u ∈ t, u = z ∨ u = V :=
      fun u hu => hall u (List.mem_cons_of_mem w hu)
    have hacc2 : or2 acc w = z ∨ or2 acc w = V := by
      rcases hacc with h1 | h1 <;> rcases hw with h2 | h2 <;> rw [h1, h2]
      · exact Or.inl hzz
      · exact Or.inr hzV
      · exact Or.inr hVz
      · exact Or.inr (or2_self V)
    have main := ih (or2 acc w) hall2 hacc2
    refine ⟨main.1, ?_⟩
    intro hcase
    apply main.2
    rcases hcase with h1 | hmem
    · left
      rcases hw with h2 | h2 <;> rw [h1, h2]
      · exact hVz
      · exact or2_self V
    · rcases List.mem_cons.mp hmem with h2 | h2
      · left
        rw [← h2]
        rcases hacc with h1 | h1 <;> rw [h1]
        · exact hzV
        · exact or2_self V
      · exact Or.inr h2

/-- C5: each per-metric mask produced by `_find_bad_channels_in_epochs`
has shape exactly (n_epochs, n_selected_channels), and when exactly one
metric is requested the OR-combination over all returned per-metric
masks (the flattening of `find_bad_channels_in_epochs`) equals that
single metric's own mask. -/
theorem C5_mask_shape_flatten (psFun : List ℝ → ℕ → ℝ) (e : Epochs)
    (picks : List ℕ) (groups : List (List ℕ)) (use : Option (List String))
    (thresh : ℝ) (mi : ℕ) (corr : Bool)
    (masks : List (String × List (List Bool)))
    (h : findBadChannelsInEpochsF psFun e picks groups use thresh mi corr =
      .ok masks) :
    (∀ p ∈ masks, MaskShape e.data.length picks.length p.2) ∧
      (∀ m, use = some [m] →
        orMasks (masks.map Prod.snd) =
          (lookupA m masks).getD (zerosMask e.data.length picks.length)) := by
  simp only [findBadChannelsInEpochsF, pickData_length] at h
  have hinit : ∀ p ∈ epochChCatalog.map
      (fun m => (m, zerosMask e.data.length picks.length)),
      MaskShape e.data.length picks.length p.2 := by
    intro p hp
    rcases List.mem_map.mp hp with ⟨m, _, rfl⟩
    exact zerosMask_shape _ _
  have hshape : ∀ p ∈ masks, MaskShape e.data.length picks.length p.2 :=
    ceGroupLoop_shape _ _ _ _ _ _ _ _ _ _ _ h hinit
  have hkeys : masks.map Prod.fst = epochChCatalog := by
    rw [ceGroupLoop_keys _ _ _ _ _ _ _ _ _ _ _ h, initAssoc_keys]
  refine ⟨hshape, ?_⟩
  intro m hm
  rw [hm] at h
  simp only [Option.getD_some] at h
  have huntouched : ∀ m', m' ∉ [m] → lookupA m' masks =
      lookupA m' (epochChCatalog.map
        (fun k => (k, zerosMask e.data.length picks.length))) :=
    ceGroupLoop_untouched _ _ _ _ _ _ _ _ _ _ _ h
  have hnd : (masks.map Prod.fst).Nodup := by
    rw [hkeys]
    decide
  have hother : ∀ p ∈ masks, p.1 ≠ m →
      p.2 = zerosMask e.data.length picks.length := by
    intro p hp hne
    have h1 : lookupA p.1 masks = some p.2 := lookupA_of_mem_nodup hnd hp
    have hmem : p.1 ∈ epochChCatalog := by
      have := List.mem_map_of_mem Prod.fst hp
      rwa [hkeys] at this
    have h2 : lookupA p.1 masks =
        some (zerosMask e.data.length picks.length) := by
      rw [huntouched p.1 (by simpa using hne), lookupA_map_mk, if_pos hmem]
    rw [h1] at h2
    exact Option.some.inj h2
  have hmasks_ne : masks ≠ [] := by
    intro hc
    rw [hc] at hkeys
    exact absurd hkeys.symm (by decide)
  cases hlk : lookupA m masks with
  | none =>
    have hne := lookupA_eq_none hlk
    cases hms : masks.map Prod.snd with
    | nil =>
      exact absurd (List.map_eq_nil_iff.mp hms) hmasks_ne
    | cons v vs =>
      have hall : ∀ w ∈ v :: vs,
          w = zerosMask e.data.length picks.length ∨
            w = zerosMask e.data.length picks.length := by
        intro w hw
        rw [← hms] at hw
        rcases List.mem_map.mp hw with ⟨p, hp, rfl⟩
        exact Or.inl (hother p hp (hne p hp))
      have hfold := foldl_or2_eq (zerosMask e.data.length picks.length)
        (zerosMask e.data.length picks.length) (or2_self _) (or2_self _)
        (or2_self _) vs v
        (fun u hu => hall u (List.mem_cons_of_mem v hu))
        (hall v (List.mem_cons_self v vs))
      have hres : vs.foldl or2 v = zerosMask e.data.length picks.length := by
        rcases hfold.1 with hr | hr <;> exact hr
      show vs.foldl or2 v = _
      rw [hres]
      rfl
  | some V =>
    have hVpair := lookupA_mem hlk
    have hVmem : V ∈ masks.map Prod.snd :=
      List.mem_map.mpr ⟨(m, V), hVpair, rfl⟩
    have hVshape : MaskShape e.data.length picks.length V := hshape _ hVpair
    have hzV : or2 (zerosMask e.data.length picks.length) V = V :=
      or2_zeros_left hVshape
    have hVz : or2 V (zerosMask e.data.length picks.length) = V :=
      or2_zeros_right hVshape
    have hall : ∀ w ∈ masks.map Prod.snd,
        w = zerosMask e.data.length picks.length ∨ w = V := by
      intro w hw
      rcases List.mem_map.mp hw with ⟨p, hp, rfl⟩
      by_cases hpm : p.1 = m
      · right
        have h1 : lookupA p.1 masks = some p.2 := lookupA_of_mem_nodup hnd hp
        rw [hpm, hlk] at h1
        exact (Option.some.inj h1).symm
      · exact Or.inl (hother p hp hpm)
    cases hms : masks.map Prod.snd with
    | nil =>
      exact absurd (List.map_eq_nil_iff.mp hms) hmasks_ne
    | cons v vs =>
      rw [hms] at hall hVmem
      have hfold := foldl_or2_eq (zerosMask e.data.length picks.length) V
        (or2_self _) hzV hVz vs v
        (fun u hu => hall u (List.mem_cons_of_mem v hu))
        (hall v (List.mem_cons_self v vs))
      have hres : vs.foldl or2 v = V := by
        apply hfold.2
        rcases List.mem_cons.mp hVmem with h2 | h2
        · exact Or.inl h2.symm
        · exact Or.inr h2
      show vs.foldl or2 v = _
      rw [hres]
      rfl

/-- Witness for `C5_mask_shape_flatten`: one epoch, one channel,
`use_metrics = ['amplitude']`, `max_iter = 0`. -/
theorem C5_mask_shape_flatten_witness :
    (findBadChannelsInEpochsF (fun _ _ => 0) ⟨[[[2, 4]]], 1, ["B"], [[]]⟩ [0]
        [[0]] (some ["amplitude"]) 3 0 false =
      .ok (epochChCatalog.map (fun m => (m, zerosMask 1 1)))) ∧
      ((∀ p ∈ epochChCatalog.map (fun m => (m, zerosMask 1 1)),
          MaskShape 1 1 p.2) ∧
        ∀ m, (some ["amplitude"] : Option (List String)) = some [m] →
          orMasks ((epochChCatalog.map (fun m => (m, zerosMask 1 1))).map
            Prod.snd) =
            (lookupA m (epochChCatalog.map (fun m => (m, zerosMask 1 1)))).getD
              (zerosMask 1 1)) := by
  have hfo : ∀ x : List ℝ, find_outliers x 3 0 = ∅ := fun x => rfl
  have heval : findBadChannelsInEpochsF (fun _ _ => 0)
      ⟨[[[2, 4]]], 1, ["B"], [[]]⟩ [0] [[0]] (some ["amplitude"]) 3 0 false =
      .ok (epochChCatalog.map (fun m => (m, zerosMask 1 1))) := by
    simp [findBadChannelsInEpochsF, ceGroupLoop, ceMetricLoop, ceEpochLoop,
      applyMetric, lookupA, epochChMetrics, pickData, epochChCatalog,
      updateAssoc, hfo, Except.bind, zerosMask]
  exact ⟨heval, C5_mask_shape_flatten (fun _ _ => 0)
    ⟨[[[2, 4]]], 1, ["B"], [[]]⟩ [0] [[0]] (some ["amplitude"]) 3 0 false _
    heval⟩

end MneBads
